import Mathlib

/-!
Request binder of `httpkit/middleware/request.go`.

A shallow embedding of `newUntypedRequestBinder` and `untypedRequestBinder.Bind`.

* Go maps are association lists; the order of the list `Parameters` is the order in which
  `range o.Parameters` visits the keys, so a statement proved for every list is proved for
  every iteration order.
* A call that panics in Go evaluates to `none`.
* The Field Binder (`untypedParamBinder`), the validator and the `errors` package are not part
  of the file under study; they enter as data (fields of `untypedParamBinder`) or as
  constructors.
* The state of the loop carries a ghost `trace` of the calls made to the collaborators.
-/

namespace middleware

/-! ## Go maps -/

/-- Map lookup `m[key]`: the value of the first entry stored under `key`. -/
def mapGet {V : Type} : List (String × V) → String → Option V
  | [], _ => none
  | (k, v) :: rest, key => if k = key then some v else mapGet rest key

/-- Map assignment `m[key] = v`: replaces the entry stored under `key`, or adds one. -/
def mapSet {V : Type} : List (String × V) → String → V → List (String × V)
  | [], key, v => [(key, v)]
  | (k, w) :: rest, key, v => if k = key then (key, v) :: rest else (k, w) :: mapSet rest key v

/-- Keys of a map, in the order of the entries. -/
def mapKeys {V : Type} (m : List (String × V)) : List String := m.map Prod.fst

/-! ## Values -/

/-- Go types that a `reflect.Type` can describe, as far as the binder distinguishes them. -/
inductive GoType
  | bool
  | string
  | int64
  | float64
  | emptyInterface
  | slice (elem : GoType)
  | map (key elem : GoType)
  | named (name : String)
deriving DecidableEq, Repr

/-- A typed Go value; `content` is the data it holds, which `Bind` never inspects. -/
structure Value where
  typ : GoType
  content : List String
deriving DecidableEq, Repr

/-- The value `reflect.Indirect(reflect.New(tpe))`: the zero value of `tpe`. -/
def zeroValue (tpe : GoType) : Value := ⟨tpe, []⟩

/-- The type `reflect.TypeOf([]interface{}{})`. -/
def sliceOfInterface : GoType := GoType.slice GoType.emptyInterface

/-- The type `reflect.TypeOf(map[string]interface{}{})`. -/
def mapOfInterface : GoType := GoType.map GoType.string GoType.emptyInterface

/-! ## Errors -/

/-- Values of Go's `error` that occur in one pass of `Bind`. -/
inductive GoError
  | New (code : Nat) (format : String) (args : List String)
  | external (code : Nat) (text : String)
deriving DecidableEq, Repr

/-- Modelled from the spec: `errors.CompositeValidationError` (package `errors` is not in the
file under study) produces one composite error that preserves every individual error, in the
order given. -/
structure CompositeError where
  Errors : List GoError
deriving DecidableEq, Repr

/-- Modelled from the spec: the constructor `errors.CompositeValidationError(errs...)`. -/
def CompositeValidationError (errs : List GoError) : CompositeError := ⟨errs⟩

/-! ## Collaborators -/

/-- The request `*http.Request`; `Bind` only hands it to the Field Binders. -/
structure Request where
  query : List (String × String)
deriving DecidableEq, Repr

/-- The route parameters, a name to value lookup. -/
structure RouteParams where
  values : List (String × String)
deriving DecidableEq, Repr

/-- The body consumer `httpkit.Consumer`, identified by its media type. -/
structure Consumer where
  mediaType : String
deriving DecidableEq, Repr

/-- The schema document `*spec.Swagger`. -/
structure Swagger where
  id : Nat
deriving DecidableEq, Repr

/-- The format registry `strfmt.Registry`. -/
structure Registry where
  id : Nat
deriving DecidableEq, Repr

/-- Modelled from the spec: `spec.Schema` (its declaration is not in the file under study);
only the type list `Schema.Type` is read by `Bind`. -/
structure Schema where
  Type_ : List String
deriving DecidableEq, Repr

/-- Modelled from the spec: `spec.Parameter` (its declaration is not in the file under study), a
descriptor with a wire name `Name`, a location `In`, a declared type `Type_`, the flag
`Required` and an optional validation schema; an absent schema is a nil pointer. -/
structure Parameter where
  Name : String
  In : String
  Type_ : String
  Required : Bool
  Schema : Option Schema
deriving DecidableEq, Repr

/-- The result `*validate.Result` of a validator, when it is not nil. -/
structure ValidateResult where
  HasErrors : Bool
  AsError : GoError
deriving DecidableEq, Repr

/-- The Field Binder `untypedParamBinder`, whose code is not in the file under study.
`Type_` is what `binder.Type()` returns (`none` for nil), `validator` is the field
`binder.validator` (`none` for nil; the function is `Validate`, whose result may be nil), and
`Bind name request routeParams consumer target` is the call `binder.Bind(...)` made while
`binder.Name = name`: it gives the contents of `target` after the call and the returned error. -/
structure untypedParamBinder where
  Name : String
  Type_ : Option GoType
  validator : Option (Value → Option ValidateResult)
  Bind : String → Request → RouteParams → Consumer → Value → Value × Option GoError

/-- The struct `untypedRequestBinder`. -/
structure untypedRequestBinder where
  Spec : Swagger
  Parameters : List (String × Parameter)
  Formats : Registry
  paramBinders : List (String × untypedParamBinder)

/-- The function `newUntypedRequestBinder` (lines 22-33); the constructor of Field Binders,
`newUntypedParamBinder`, is taken as an argument. -/
def newUntypedRequestBinder (newUntypedParamBinder : Parameter → Swagger → Registry → untypedParamBinder)
    (parameters : List (String × Parameter)) (spec : Swagger) (formats : Registry) :
    untypedRequestBinder :=
  let binders := parameters.foldl
    (fun binders fp => mapSet binders fp.1 (newUntypedParamBinder fp.2 spec formats)) []
  { Parameters := parameters, paramBinders := binders, Spec := spec, Formats := formats }

/-! ## Destinations and reflection -/

/-- What a non-nil pointer handed to `Bind` points to. -/
inductive Pointee
  | struct (fields : List (String × Value))
  | map (entries : Option (List (String × Value)))
  | other (v : Value)
deriving DecidableEq, Repr

/-- The argument `data interface{}` of `Bind`. A `map` is a `map[string]interface{}`, with
`none` for the nil map. A struct is reached through a pointer, so that its fields can be set;
`other` stands for every value whose kind is not Map, Struct or Ptr, and for a struct that is
not reached through a pointer there is no constructor. -/
inductive Data
  | nil
  | other (v : Value)
  | map (entries : Option (List (String × Value)))
  | ptr (target : Option Pointee)
deriving DecidableEq, Repr

/-- The `reflect.Value` called `val` in `Bind`. -/
inductive Val
  | invalid
  | other (v : Value)
  | map (entries : Option (List (String × Value)))
  | struct (fields : List (String × Value))
deriving DecidableEq, Repr

/-- The kinds `reflect.Kind` that `Bind` tells apart. -/
inductive Kind
  | Invalid
  | Map
  | Struct
  | Other
deriving DecidableEq, Repr

/-- The expression `reflect.Indirect(reflect.ValueOf(data))` of line 37. -/
def indirectValueOf : Data → Val
  | Data.nil => Val.invalid
  | Data.other v => Val.other v
  | Data.map m => Val.map m
  | Data.ptr none => Val.invalid
  | Data.ptr (some (Pointee.struct fs)) => Val.struct fs
  | Data.ptr (some (Pointee.map m)) => Val.map m
  | Data.ptr (some (Pointee.other v)) => Val.other v

/-- The method `reflect.Value.Kind`. -/
def Val.Kind : Val → Kind
  | Val.invalid => Kind.Invalid
  | Val.other _ => Kind.Other
  | Val.map _ => Kind.Map
  | Val.struct _ => Kind.Struct

/-- The method `reflect.Value.FieldByName`: it panics (outer `none`) unless the kind is Struct,
and gives the zero `reflect.Value` (inner `none`) when no field has that name. -/
def Val.FieldByName : Val → String → Option (Option Value)
  | Val.struct fs, name => some (mapGet fs name)
  | _, _ => none

/-- Assignment through the `reflect.Value` of a struct field: the field keeps its place, and a
struct never gains a field. -/
def setField : List (String × Value) → String → Value → List (String × Value)
  | [], _, _ => []
  | (k, w) :: rest, name, v => if k = name then (k, v) :: rest else (k, w) :: setField rest name v

/-- What the struct looks like once the Field Binder has written `v` through the field value
obtained by `FieldByName`. -/
def Val.writeField : Val → String → Value → Val
  | Val.struct fs, name, v => Val.struct (setField fs name v)
  | val, _, _ => val

/-- The method `reflect.Value.SetMapIndex`: it panics unless the kind is Map, and on a nil map. -/
def Val.SetMapIndex : Val → String → Value → Option Val
  | Val.map (some m), key, elem => some (Val.map (some (mapSet m key elem)))
  | _, _, _ => none

/-! ## Bind -/

/-- Ghost record of a call made to a collaborator, under the key `fieldName` of the parameter
being processed. -/
inductive Event
  | bind (fieldName : String) (target : Value)
  | validate (fieldName : String) (value : Value)
  | setMapIndex (fieldName : String) (key : String) (elem : Value)
deriving DecidableEq, Repr

/-- The state of the loop of `Bind`: the slice `result`, the destination `val`, the Field
Binders (their `Name` is assigned by the loop) and the ghost trace. -/
structure LoopState where
  result : List GoError
  val : Val
  paramBinders : List (String × untypedParamBinder)
  trace : List Event

/-- Lines 51-58: the type of the scratch destination of a map destination. A nil schema is
dereferenced (panic, `none`) when the Field Binder declares no type. -/
def scratchType (binder : untypedParamBinder) (param : Parameter) : Option GoType :=
  match binder.Type_ with
  | some tpe => some tpe
  | none =>
    match param.Schema with
    | none => none
    | some schema =>
      if schema.Type_.contains "array" then some sliceOfInterface else some mapOfInterface

/-- Lines 73-78: the error that validation appends (if any), and the ghost event. -/
def validateTarget (binder : untypedParamBinder) (fieldName : String) (target : Value) :
    List GoError × List Event :=
  match binder.validator with
  | none => ([], [])
  | some validate =>
    match validate target with
    | none => ([], [Event.validate fieldName target])
    | some rr =>
      if rr.HasErrors then ([rr.AsError], [Event.validate fieldName target])
      else ([], [Event.validate fieldName target])

/-- The body of the loop of `Bind` (lines 42-82) for the entry `fieldName, param`. -/
def bindParam (request : Request) (routeParams : RouteParams) (consumer : Consumer)
    (isMap : Bool) (st : LoopState) (fieldName : String) (param : Parameter) :
    Option LoopState :=
  match mapGet st.paramBinders fieldName with
  | none => none -- line 42 gives a nil pointer, dereferenced at line 46 or in line 51
  | some binder0 =>
    -- lines 44-61: the binder (renamed for a struct) and the target
    let resolved : Option (untypedParamBinder × Option Value) :=
      if isMap then
        match scratchType binder0 param with
        | none => none
        | some tpe => some (binder0, some (zeroValue tpe))
      else
        match st.val.FieldByName fieldName with
        | none => none
        | some target => some ({ binder0 with Name := fieldName }, target)
    match resolved with
    | none => none
    | some (binder, target) =>
      let binders := if isMap then st.paramBinders else mapSet st.paramBinders fieldName binder
      match target with
      | none =>
        -- lines 63-66
        some { st with
          paramBinders := binders
          result := st.result ++
            [GoError.New 500 "parameter name %q is an unknown field" [binder.Name]] }
      | some target =>
        -- line 68
        match binder.Bind binder.Name request routeParams consumer target with
        | (written, some err) =>
          some { result := st.result ++ [err]
                 val := if isMap then st.val else st.val.writeField fieldName written
                 paramBinders := binders
                 trace := st.trace ++ [Event.bind fieldName target] }
        | (written, none) =>
          -- lines 73-78
          let checked := validateTarget binder fieldName written
          -- lines 80-82
          let stored : Option Val :=
            if isMap then st.val.SetMapIndex param.Name written
            else some (st.val.writeField fieldName written)
          match stored with
          | none => none
          | some val =>
            some { result := st.result ++ checked.1
                   val := val
                   paramBinders := binders
                   trace := st.trace ++ [Event.bind fieldName target] ++ checked.2 ++
                     (if isMap then [Event.setMapIndex fieldName param.Name written] else []) }

/-- The loop `for fieldName, param := range o.Parameters` (lines 41-83), over the entries in
the order in which they are visited. -/
def rangeParameters (request : Request) (routeParams : RouteParams) (consumer : Consumer)
    (isMap : Bool) : List (String × Parameter) → LoopState → Option LoopState
  | [], st => some st
  | (fieldName, param) :: rest, st =>
    match bindParam request routeParams consumer isMap st fieldName param with
    | none => none
    | some st1 => rangeParameters request routeParams consumer isMap rest st1

/-- What a call of `Bind` that returns leaves behind: the returned error (`none` for nil) and
the final state of the loop. -/
structure BindReturn where
  err : Option CompositeError
  final : LoopState

/-- The method `untypedRequestBinder.Bind` (lines 36-90); `none` when the call panics. -/
def untypedRequestBinder.Bind (o : untypedRequestBinder) (request : Request)
    (routeParams : RouteParams) (consumer : Consumer) (data : Data) : Option BindReturn :=
  let val := indirectValueOf data
  let isMap := decide (val.Kind = Kind.Map)
  match rangeParameters request routeParams consumer isMap o.Parameters
      { result := [], val := val, paramBinders := o.paramBinders, trace := [] } with
  | none => none
  | some st =>
    if st.result.length > 0 then
      some { err := some (CompositeValidationError st.result), final := st }
    else
      some { err := none, final := st }

/-! ## One parameter seen on its own

The definitions below describe what the body of the loop does for one entry as a function of
the three things it reads from the state: the Field Binder stored under the key, the struct
field of that name, and whether the destination is a map that can be assigned to. -/

/-- The method `reflect.Value.SetMapIndex` succeeds exactly on a map that is not nil. -/
def Val.canStore : Val → Bool
  | Val.map (some _) => true
  | _ => false

/-- The destination after `key` has received `v`: a map entry for a map, a field for a struct. -/
def Val.put : Val → String → Value → Val
  | Val.map (some m), key, v => Val.map (some (mapSet m key v))
  | Val.struct fs, key, v => Val.struct (setField fs key v)
  | val, _, _ => val

/-- The contents of the destination under `key`: the map entry or the struct field. -/
def Val.get : Val → String → Option Value
  | Val.map (some m), key => mapGet m key
  | Val.struct fs, key => mapGet fs key
  | _, _ => none

/-- What one turn of the loop does: the Field Binder as it stands after lines 44-48, the target
(`none` when it is not valid), the outcome of `binder.Bind` (`none` when it is not called), the
errors appended to `result`, the ghost events, and the value left in the slot of the
destination (`none` when the destination is not written). -/
structure Attempt where
  binder : untypedParamBinder
  target : Option Value
  call : Option (Value × Option GoError)
  errs : List GoError
  events : List Event
  store : Option Value

/-- One turn of the loop for the entry `fieldName, param`, from the Field Binder `binder0` found
under `fieldName`, the result `field` of `FieldByName` and the flag `canStore`; `none` when the
turn panics. -/
def attempt (request : Request) (routeParams : RouteParams) (consumer : Consumer)
    (isMap : Bool) (binder0 : untypedParamBinder) (field : Option (Option Value))
    (canStore : Bool) (fieldName : String) (param : Parameter) : Option Attempt :=
  let binder : untypedParamBinder := if isMap then binder0 else { binder0 with Name := fieldName }
  let slot : Option (Option Value) :=
    if isMap then (scratchType binder0 param).map (fun tpe => some (zeroValue tpe)) else field
  match slot with
  | none => none
  | some none =>
    some { binder := binder, target := none, call := none,
           errs := [GoError.New 500 "parameter name %q is an unknown field" [binder.Name]],
           events := [], store := none }
  | some (some target) =>
    match binder.Bind binder.Name request routeParams consumer target with
    | (written, some err) =>
      some { binder := binder, target := some target, call := some (written, some err),
             errs := [err], events := [Event.bind fieldName target],
             store := if isMap then none else some written }
    | (written, none) =>
      if isMap && !canStore then none
      else
        some { binder := binder, target := some target, call := some (written, none),
               errs := (validateTarget binder fieldName written).1,
               events := [Event.bind fieldName target] ++
                 (validateTarget binder fieldName written).2 ++
                 (if isMap then [Event.setMapIndex fieldName param.Name written] else []),
               store := some written }

/-- The key of the destination that belongs to an entry: the wire name for a map, the field
name for a struct. -/
def slotKey (isMap : Bool) (fieldName : String) (param : Parameter) : String :=
  if isMap then param.Name else fieldName

/-- The state of the loop after a turn described by `a`. -/
def applyAttempt (isMap : Bool) (st : LoopState) (fieldName : String) (param : Parameter)
    (a : Attempt) : LoopState :=
  { result := st.result ++ a.errs
    val := match a.store with
      | none => st.val
      | some v => st.val.put (slotKey isMap fieldName param) v
    paramBinders := if isMap then st.paramBinders else mapSet st.paramBinders fieldName a.binder
    trace := st.trace ++ a.events }

/-- One turn of the loop for an entry, from a state of the loop with Field Binders `binders` and
destination `val`; `none` when that turn panics. -/
def attemptAt (request : Request) (routeParams : RouteParams) (consumer : Consumer)
    (isMap : Bool) (binders : List (String × untypedParamBinder)) (val : Val)
    (fp : String × Parameter) : Option Attempt :=
  match mapGet binders fp.1 with
  | none => none
  | some binder0 =>
    attempt request routeParams consumer isMap binder0 (val.FieldByName fp.1) val.canStore
      fp.1 fp.2

/-- The turn of the loop for an entry of `o.Parameters`, taken from the state in which `Bind`
enters the loop; `none` when that turn panics. -/
def attemptOf (o : untypedRequestBinder) (request : Request) (routeParams : RouteParams)
    (consumer : Consumer) (data : Data) (fp : String × Parameter) : Option Attempt :=
  attemptAt request routeParams consumer (decide ((indirectValueOf data).Kind = Kind.Map))
    o.paramBinders (indirectValueOf data) fp

/-- The errors that the turn of an entry adds to `result`, from a state of the loop. -/
def errsAt (request : Request) (routeParams : RouteParams) (consumer : Consumer)
    (isMap : Bool) (binders : List (String × untypedParamBinder)) (val : Val)
    (fp : String × Parameter) : List GoError :=
  match attemptAt request routeParams consumer isMap binders val fp with
  | none => []
  | some a => a.errs

/-- The ghost events of the turn of an entry, from a state of the loop. -/
def eventsAt (request : Request) (routeParams : RouteParams) (consumer : Consumer)
    (isMap : Bool) (binders : List (String × untypedParamBinder)) (val : Val)
    (fp : String × Parameter) : List Event :=
  match attemptAt request routeParams consumer isMap binders val fp with
  | none => []
  | some a => a.events

/-- The write that the turn of an entry makes to the destination, from a state of the loop: the
key of the slot and the value left there. -/
def writeAt (request : Request) (routeParams : RouteParams) (consumer : Consumer)
    (isMap : Bool) (binders : List (String × untypedParamBinder)) (val : Val)
    (fp : String × Parameter) : Option (String × Value) :=
  match attemptAt request routeParams consumer isMap binders val fp with
  | none => none
  | some a =>
    match a.store with
    | none => none
    | some v => some (slotKey isMap fp.1 fp.2, v)

/-- The errors that an entry of `o.Parameters` adds to `result`. -/
def paramErrors (o : untypedRequestBinder) (request : Request) (routeParams : RouteParams)
    (consumer : Consumer) (data : Data) (fp : String × Parameter) : List GoError :=
  errsAt request routeParams consumer (decide ((indirectValueOf data).Kind = Kind.Map))
    o.paramBinders (indirectValueOf data) fp

/-- The ghost events of an entry of `o.Parameters`. -/
def paramEvents (o : untypedRequestBinder) (request : Request) (routeParams : RouteParams)
    (consumer : Consumer) (data : Data) (fp : String × Parameter) : List Event :=
  eventsAt request routeParams consumer (decide ((indirectValueOf data).Kind = Kind.Map))
    o.paramBinders (indirectValueOf data) fp

/-- The write that an entry of `o.Parameters` makes to the destination: the key of the slot and
the value left there. -/
def paramWrite (o : untypedRequestBinder) (request : Request) (routeParams : RouteParams)
    (consumer : Consumer) (data : Data) (fp : String × Parameter) : Option (String × Value) :=
  writeAt request routeParams consumer (decide ((indirectValueOf data).Kind = Kind.Map))
    o.paramBinders (indirectValueOf data) fp

/-- The states of the loop run through when every turn behaves as it does from the state with
Field Binders `binders0` and destination `val0`. -/
def applyAll (request : Request) (routeParams : RouteParams) (consumer : Consumer)
    (isMap : Bool) (binders0 : List (String × untypedParamBinder)) (val0 : Val) :
    List (String × Parameter) → LoopState → LoopState
  | [], st => st
  | fp :: rest, st =>
    match attemptAt request routeParams consumer isMap binders0 val0 fp with
    | none => applyAll request routeParams consumer isMap binders0 val0 rest st
    | some a =>
      applyAll request routeParams consumer isMap binders0 val0 rest
        (applyAttempt isMap st fp.1 fp.2 a)

/-- A destination on which no turn of the loop can panic: a struct reached through a pointer
with a Field Binder under every key, or a map that is not nil with, under every key, a Field
Binder for which a scratch type is found. -/
def untypedRequestBinder.canBind (o : untypedRequestBinder) (data : Data) : Bool :=
  match indirectValueOf data with
  | Val.struct _ => o.Parameters.all (fun fp => (mapGet o.paramBinders fp.1).isSome)
  | Val.map (some _) =>
    o.Parameters.all (fun fp =>
      match mapGet o.paramBinders fp.1 with
      | none => false
      | some binder => (scratchType binder fp.2).isSome)
  | _ => false

/-- The key of `o.Parameters` under which a ghost event was recorded. -/
def Event.fieldName : Event → String
  | Event.bind fieldName _ => fieldName
  | Event.validate fieldName _ => fieldName
  | Event.setMapIndex fieldName _ _ => fieldName

/-- The ghost event records a call of the Field Binder stored under the key `fieldName`. -/
def Event.isBindOf (fieldName : String) : Event → Bool
  | Event.bind f _ => decide (f = fieldName)
  | _ => false

/-- The turn found no field of the name of the parameter (lines 63-66). -/
def Attempt.unknownField (a : Attempt) : Bool := a.target.isNone

/-- The Field Binder was called and returned an error (lines 68-71). -/
def Attempt.binderError (a : Attempt) : Bool :=
  match a.call with
  | some (_, some _) => true
  | _ => false

/-- The Field Binder was called and returned nil. -/
def Attempt.bound (a : Attempt) : Bool :=
  match a.call with
  | some (_, none) => true
  | _ => false

/-- The Field Binder returned nil and the validator gave a result that has errors
(lines 73-78). -/
def Attempt.validationError (a : Attempt) : Bool :=
  match a.call with
  | some (written, none) =>
    match a.binder.validator with
    | none => false
    | some validate =>
      match validate written with
      | none => false
      | some rr => rr.HasErrors
  | _ => false

/-- The entry of `o.Parameters` is a failing parameter: it hits an unknown field, a Field Binder
error, or a validation result with errors. -/
def fails (o : untypedRequestBinder) (request : Request) (routeParams : RouteParams)
    (consumer : Consumer) (data : Data) (fp : String × Parameter) : Bool :=
  match attemptOf o request routeParams consumer data fp with
  | none => false
  | some a => a.unknownField || a.binderError || a.validationError

/-! ## A sample service

A request binder with four parameters, used to evaluate the definitions on concrete inputs. -/

/-- A sample constructor of Field Binders: the Field Binder reads the wire name of its parameter
in the query, reports a missing required parameter under its current `Name`, declares the type
of an integer or a string parameter, and validates that an integer is not `-5`. -/
def sampleParamBinder (param : Parameter) (_spec : Swagger) (_formats : Registry) :
    untypedParamBinder :=
  { Name := param.Name
    Type_ := if param.Type_ = "integer" then some GoType.int64
             else if param.Type_ = "string" then some GoType.string else none
    validator :=
      if param.Type_ = "integer" then
        some (fun v => some
          { HasErrors := decide (v.content = ["-5"])
            AsError := GoError.New 422 "%s in %s should be greater than or equal to %v"
              [param.Name, param.In, "1"] })
      else none
    Bind := fun name request _ _ target =>
      match mapGet request.query param.Name with
      | some raw => ({ target with content := [raw] }, none)
      | none =>
        if param.Required then
          (target, some (GoError.New 422 "%s in %s is required" [name, param.In]))
        else (target, none) }

/-- The entry `Limit` of the sample parameters: an integer read in the query. -/
def sampleLimit : String × Parameter :=
  ("Limit", { Name := "limit", In := "query", Type_ := "integer", Required := false,
              Schema := none })

/-- The entry `Name` of the sample parameters: a string read in the query. -/
def sampleName : String × Parameter :=
  ("Name", { Name := "name", In := "query", Type_ := "string", Required := false,
             Schema := none })

/-- The entry `Age` of the sample parameters: a required integer read in the query. -/
def sampleAge : String × Parameter :=
  ("Age", { Name := "age", In := "query", Type_ := "integer", Required := true,
            Schema := none })

/-- The entry `Tags` of the sample parameters: a body parameter with an array schema. -/
def sampleTags : String × Parameter :=
  ("Tags", { Name := "tags", In := "body", Type_ := "", Required := false,
             Schema := some { Type_ := ["array"] } })

/-- The sample parameters, under their field names. -/
def sampleParameters : List (String × Parameter) :=
  [sampleLimit, sampleName, sampleAge, sampleTags]

/-- The sample request binder. -/
def sampleBinder : untypedRequestBinder :=
  newUntypedRequestBinder sampleParamBinder sampleParameters ⟨1⟩ ⟨1⟩

/-- A sample request: `limit=-5&name=fido&tags=a`, without `age`. -/
def sampleRequest : Request := ⟨[("limit", "-5"), ("name", "fido"), ("tags", "a")]⟩

/-- Sample route parameters: none. -/
def sampleRouteParams : RouteParams := ⟨[]⟩

/-- A sample consumer. -/
def sampleConsumer : Consumer := ⟨"application/json"⟩

/-- The fields of the sample struct: there is no field `Tags`. -/
def sampleFields : List (String × Value) :=
  [("Limit", zeroValue GoType.int64), ("Name", zeroValue GoType.string),
   ("Age", zeroValue GoType.int64)]

/-- A sample struct destination, reached through a pointer. -/
def sampleStruct : Data := Data.ptr (some (Pointee.struct sampleFields))

/-- A sample map destination, empty and not nil. -/
def sampleMap : Data := Data.map (some [])

/-- A second sample parameter with the wire name `limit`, read as a string. -/
def sampleLimitText : String × Parameter :=
  ("LimitText", { Name := "limit", In := "query", Type_ := "string", Required := false,
                  Schema := none })

/-- A request binder with two parameters that share the wire name `limit`. -/
def clashingBinder : untypedRequestBinder :=
  newUntypedRequestBinder sampleParamBinder [sampleLimit, sampleLimitText] ⟨1⟩ ⟨1⟩

/-- A request in which every parameter of `clashingBinder` is valid: `limit=10`. -/
def plainRequest : Request := ⟨[("limit", "10")]⟩

/-- Two Field Binders that differ at most in the field `Name`, the only one that `Bind`
assigns. -/
def untypedParamBinder.sameButName (b1 b2 : untypedParamBinder) : Prop :=
  b1.Type_ = b2.Type_ ∧ b1.validator = b2.validator ∧ b1.Bind = b2.Bind

/-- Two destinations with the same contents: two maps that hold the same value under every key
(a Go map has no order), and otherwise two equal values. -/
def Val.sameContents : Val → Val → Prop
  | Val.map (some m1), Val.map (some m2) => ∀ k, mapGet m1 k = mapGet m2 k
  | v1, v2 => v1 = v2

/-! ## Lemmas on maps and fields -/

theorem mapGet_mapSet_self {V : Type} (m : List (String × V)) (k : String) (v : V) :
    mapGet (mapSet m k v) k = some v := by
  induction m with
  | nil => simp [mapSet, mapGet]
  | cons e rest ih =>
    obtain ⟨k1, w⟩ := e
    by_cases h : k1 = k
    · simp [mapSet, mapGet, h]
    · simp [mapSet, mapGet, h, ih]

theorem mapGet_mapSet_of_ne {V : Type} (m : List (String × V)) (k g : String) (v : V)
    (h : k ≠ g) : mapGet (mapSet m k v) g = mapGet m g := by
  induction m with
  | nil => simp [mapSet, mapGet, h]
  | cons e rest ih =>
    obtain ⟨k1, w⟩ := e
    by_cases h1 : k1 = k
    · subst h1; simp [mapSet, mapGet, h]
    · by_cases h2 : k1 = g
      · subst h2; simp [mapSet, mapGet, h1]
      · simp [mapSet, mapGet, h1, h2, ih]

theorem mapKeys_mapSet_of_mem {V : Type} (m : List (String × V)) (k : String) (v : V)
    (h : k ∈ mapKeys m) : mapKeys (mapSet m k v) = mapKeys m := by
  induction m with
  | nil => simp [mapKeys] at h
  | cons e rest ih =>
    obtain ⟨k1, w⟩ := e
    by_cases h1 : k1 = k
    · simp [mapSet, mapKeys, h1]
    · have h2 : k ∈ mapKeys rest := by
        simp only [mapKeys, List.map_cons, List.mem_cons] at h
        rcases h with h | h
        · exact absurd h.symm h1
        · exact h
      have := ih h2
      simp only [mapKeys] at this
      simp [mapSet, mapKeys, h1, this]

theorem mapKeys_mapSet_of_not_mem {V : Type} (m : List (String × V)) (k : String) (v : V)
    (h : k ∉ mapKeys m) : mapKeys (mapSet m k v) = mapKeys m ++ [k] := by
  induction m with
  | nil => simp [mapKeys, mapSet]
  | cons e rest ih =>
    obtain ⟨k1, w⟩ := e
    simp only [mapKeys, List.map_cons, List.mem_cons, not_or] at h
    have h1 : ¬ k1 = k := fun h2 => h.1 h2.symm
    have := ih h.2
    simp only [mapKeys] at this
    simp [mapSet, mapKeys, h1, this]

theorem mapGet_isSome_iff {V : Type} (m : List (String × V)) (k : String) :
    (mapGet m k).isSome = true ↔ k ∈ mapKeys m := by
  induction m with
  | nil => simp [mapGet, mapKeys]
  | cons e rest ih =>
    obtain ⟨k1, w⟩ := e
    by_cases h1 : k1 = k
    · simp [mapGet, mapKeys, h1]
    · have h2 : ¬ k = k1 := fun h => h1 h.symm
      simp only [mapKeys] at ih
      simp [mapGet, mapKeys, h1, h2, ih]

theorem mapGet_eq_none_iff {V : Type} (m : List (String × V)) (k : String) :
    mapGet m k = none ↔ k ∉ mapKeys m := by
  rw [← mapGet_isSome_iff]
  cases mapGet m k <;> simp

theorem mapGet_of_mem {V : Type} (m : List (String × V)) (k : String) (v : V)
    (hn : (mapKeys m).Nodup) (h : (k, v) ∈ m) : mapGet m k = some v := by
  induction m with
  | nil => simp at h
  | cons e rest ih =>
    obtain ⟨k1, w⟩ := e
    simp only [mapKeys, List.map_cons, List.nodup_cons] at hn
    simp only [List.mem_cons, Prod.mk.injEq] at h
    rcases h with ⟨h1, h2⟩ | h
    · simp [mapGet, h1, h2]
    · have hk : k ∈ List.map Prod.fst rest := List.mem_map.mpr ⟨(k, v), h, rfl⟩
      have h1 : ¬ k1 = k := fun h2 => hn.1 (h2 ▸ hk)
      simp [mapGet, h1, ih hn.2 h]

theorem mem_of_mapGet {V : Type} (m : List (String × V)) (k : String) (v : V)
    (h : mapGet m k = some v) : (k, v) ∈ m := by
  induction m with
  | nil => simp [mapGet] at h
  | cons e rest ih =>
    obtain ⟨k1, w⟩ := e
    by_cases h1 : k1 = k
    · simp [mapGet, h1] at h
      simp [h1, h]
    · simp [mapGet, h1] at h
      exact List.mem_cons_of_mem _ (ih h)

theorem mapGet_setField_of_ne (fs : List (String × Value)) (k g : String) (v : Value)
    (h : k ≠ g) : mapGet (setField fs k v) g = mapGet fs g := by
  induction fs with
  | nil => simp [setField]
  | cons e rest ih =>
    obtain ⟨k1, w⟩ := e
    by_cases h1 : k1 = k
    · subst h1; simp [setField, mapGet, h]
    · by_cases h2 : k1 = g
      · subst h2; simp [setField, mapGet, h1]
      · simp [setField, mapGet, h1, h2, ih]

theorem mapGet_setField_self (fs : List (String × Value)) (k : String) (v : Value)
    (h : mapGet fs k ≠ none) : mapGet (setField fs k v) k = some v := by
  induction fs with
  | nil => simp [mapGet] at h
  | cons e rest ih =>
    obtain ⟨k1, w⟩ := e
    by_cases h1 : k1 = k
    · simp [setField, mapGet, h1]
    · simp only [mapGet, h1, if_false] at h
      simp [setField, mapGet, h1, ih h]

theorem mapKeys_setField (fs : List (String × Value)) (k : String) (v : Value) :
    mapKeys (setField fs k v) = mapKeys fs := by
  induction fs with
  | nil => simp [setField]
  | cons e rest ih =>
    obtain ⟨k1, w⟩ := e
    simp only [mapKeys] at ih
    by_cases h1 : k1 = k
    · simp [setField, mapKeys, h1]
    · simp [setField, mapKeys, h1, ih]

/-! ## The body of the loop, one parameter at a time -/

theorem SetMapIndex_eq (val : Val) (key : String) (v : Value) :
    val.SetMapIndex key v = if val.canStore then some (val.put key v) else none := by
  cases val with
  | map m => cases m <;> simp [Val.SetMapIndex, Val.canStore, Val.put]
  | _ => simp [Val.SetMapIndex, Val.canStore]

theorem writeField_eq_put (val : Val) (key : String) (v : Value)
    (h : val.FieldByName key ≠ none) : val.writeField key v = val.put key v := by
  cases val with
  | struct fs => simp [Val.writeField, Val.put]
  | _ => simp [Val.FieldByName] at h

/-- The body of the loop reads the state only through the Field Binder found under the key,
the field of that name and the flag `canStore`, and changes it as `applyAttempt` says. -/
theorem bindParam_eq (request : Request) (routeParams : RouteParams) (consumer : Consumer)
    (isMap : Bool) (st : LoopState) (fieldName : String) (param : Parameter) :
    bindParam request routeParams consumer isMap st fieldName param =
      match mapGet st.paramBinders fieldName with
      | none => none
      | some binder0 =>
        (attempt request routeParams consumer isMap binder0 (st.val.FieldByName fieldName)
          st.val.canStore fieldName param).map (applyAttempt isMap st fieldName param) := by
  unfold bindParam
  cases hb : mapGet st.paramBinders fieldName with
  | none => rfl
  | some binder0 =>
    cases isMap with
    | true =>
      cases ht : scratchType binder0 param with
      | none => simp [attempt, ht]
      | some tpe =>
        cases hc : binder0.Bind binder0.Name request routeParams consumer (zeroValue tpe) with
        | mk written err =>
          cases err with
          | some e => simp [attempt, ht, hc, applyAttempt]
          | none =>
            cases hs : st.val.canStore with
            | false => simp [attempt, ht, hc, SetMapIndex_eq, hs]
            | true => simp [attempt, ht, hc, SetMapIndex_eq, hs, applyAttempt, slotKey]
    | false =>
      cases hf : st.val.FieldByName fieldName with
      | none => simp [attempt]
      | some target =>
        have hne : st.val.FieldByName fieldName ≠ none := by simp [hf]
        cases target with
        | none => simp [attempt, applyAttempt]
        | some target =>
          cases hc : binder0.Bind fieldName request routeParams consumer target with
          | mk written err =>
            cases err with
            | some e =>
              simp [attempt, hc, applyAttempt, slotKey, writeField_eq_put _ _ _ hne]
            | none =>
              simp [attempt, hc, applyAttempt, slotKey, writeField_eq_put _ _ _ hne]

theorem bindParam_eq_attemptAt (request : Request) (routeParams : RouteParams)
    (consumer : Consumer) (isMap : Bool) (st : LoopState) (fieldName : String)
    (param : Parameter) :
    bindParam request routeParams consumer isMap st fieldName param =
      (attemptAt request routeParams consumer isMap st.paramBinders st.val
        (fieldName, param)).map (applyAttempt isMap st fieldName param) := by
  rw [bindParam_eq]
  unfold attemptAt
  cases mapGet st.paramBinders fieldName <;> rfl

theorem canStore_put (val : Val) (key : String) (v : Value) :
    (val.put key v).canStore = val.canStore := by
  cases val with
  | map m => cases m <;> rfl
  | _ => rfl

theorem Kind_put (val : Val) (key : String) (v : Value) :
    (val.put key v).Kind = val.Kind := by
  cases val with
  | map m => cases m <;> rfl
  | _ => rfl

theorem FieldByName_put_of_ne (val : Val) (key g : String) (v : Value) (h : key ≠ g) :
    (val.put key v).FieldByName g = val.FieldByName g := by
  cases val with
  | map m => cases m <;> rfl
  | struct fs => simp [Val.put, Val.FieldByName, mapGet_setField_of_ne _ _ _ _ h]
  | _ => rfl

theorem attempt_map_field (request : Request) (routeParams : RouteParams) (consumer : Consumer)
    (binder0 : untypedParamBinder) (field field1 : Option (Option Value)) (canStore : Bool)
    (fieldName : String) (param : Parameter) :
    attempt request routeParams consumer true binder0 field canStore fieldName param =
      attempt request routeParams consumer true binder0 field1 canStore fieldName param := by
  simp [attempt]

theorem attempt_struct_canStore (request : Request) (routeParams : RouteParams)
    (consumer : Consumer) (binder0 : untypedParamBinder) (field : Option (Option Value))
    (canStore canStore1 : Bool) (fieldName : String) (param : Parameter) :
    attempt request routeParams consumer false binder0 field canStore fieldName param =
      attempt request routeParams consumer false binder0 field canStore1 fieldName param := by
  simp [attempt]

/-- A turn of the loop does not change what the turn of an entry with another key does. -/
theorem attemptAt_applyAttempt (request : Request) (routeParams : RouteParams)
    (consumer : Consumer) (isMap : Bool) (st : LoopState) (fp g : String × Parameter)
    (a : Attempt) (hne : fp.1 ≠ g.1) :
    attemptAt request routeParams consumer isMap (applyAttempt isMap st fp.1 fp.2 a).paramBinders
        (applyAttempt isMap st fp.1 fp.2 a).val g =
      attemptAt request routeParams consumer isMap st.paramBinders st.val g := by
  have hcs : (applyAttempt isMap st fp.1 fp.2 a).val.canStore = st.val.canStore := by
    unfold applyAttempt
    cases a.store <;> simp [canStore_put]
  cases isMap with
  | true =>
    have hb : (applyAttempt true st fp.1 fp.2 a).paramBinders = st.paramBinders := by
      simp [applyAttempt]
    unfold attemptAt
    rw [hb, hcs]
    cases mapGet st.paramBinders g.1 with
    | none => rfl
    | some b => exact attempt_map_field _ _ _ _ _ _ _ _ _
  | false =>
    have hb : mapGet (applyAttempt false st fp.1 fp.2 a).paramBinders g.1 =
        mapGet st.paramBinders g.1 := by
      simp [applyAttempt, mapGet_mapSet_of_ne _ _ _ _ hne]
    have hf : (applyAttempt false st fp.1 fp.2 a).val.FieldByName g.1 =
        st.val.FieldByName g.1 := by
      unfold applyAttempt
      cases a.store <;> simp [slotKey, FieldByName_put_of_ne _ _ _ _ hne]
    unfold attemptAt
    rw [hb, hf, hcs]

/-- The loop, when the keys of the entries are distinct: it panics exactly when the turn of
some entry, taken from the state on entry, panics; otherwise it ends in the state obtained by
applying the turns in order. -/
theorem rangeParameters_eq_aux (request : Request) (routeParams : RouteParams)
    (consumer : Consumer) (isMap : Bool) (binders0 : List (String × untypedParamBinder))
    (val0 : Val) (ps : List (String × Parameter)) :
    ∀ st : LoopState, (mapKeys ps).Nodup →
      (∀ fp ∈ ps, attemptAt request routeParams consumer isMap st.paramBinders st.val fp =
        attemptAt request routeParams consumer isMap binders0 val0 fp) →
      rangeParameters request routeParams consumer isMap ps st =
        if ps.all (fun fp =>
            (attemptAt request routeParams consumer isMap binders0 val0 fp).isSome) then
          some (applyAll request routeParams consumer isMap binders0 val0 ps st)
        else none := by
  induction ps with
  | nil => intro st _ _; simp [rangeParameters, applyAll]
  | cons fp rest ih =>
    intro st hk hag
    obtain ⟨f, p⟩ := fp
    simp only [mapKeys, List.map_cons, List.nodup_cons] at hk
    have h0 := hag (f, p) (List.mem_cons_self _ _)
    simp only [rangeParameters, bindParam_eq_attemptAt, h0]
    cases ha : attemptAt request routeParams consumer isMap binders0 val0 (f, p) with
    | none => simp [ha]
    | some a =>
      have hag1 : ∀ g ∈ rest,
          attemptAt request routeParams consumer isMap
              (applyAttempt isMap st f p a).paramBinders (applyAttempt isMap st f p a).val g =
            attemptAt request routeParams consumer isMap binders0 val0 g := by
        intro g hg
        have hne : f ≠ g.1 := by
          intro h
          exact hk.1 (h ▸ List.mem_map.mpr ⟨g, hg, rfl⟩)
        rw [← hag g (List.mem_cons_of_mem _ hg)]
        exact attemptAt_applyAttempt request routeParams consumer isMap st (f, p) g a hne
      have := ih (applyAttempt isMap st f p a) hk.2 hag1
      simp only [Option.map_some', this, List.all_cons, Option.isSome_some, Bool.true_and,
        applyAll, ha]

theorem rangeParameters_eq (request : Request) (routeParams : RouteParams)
    (consumer : Consumer) (isMap : Bool) (ps : List (String × Parameter)) (st : LoopState)
    (hk : (mapKeys ps).Nodup) :
    rangeParameters request routeParams consumer isMap ps st =
      if ps.all (fun fp =>
          (attemptAt request routeParams consumer isMap st.paramBinders st.val fp).isSome) then
        some (applyAll request routeParams consumer isMap st.paramBinders st.val ps st)
      else none :=
  rangeParameters_eq_aux request routeParams consumer isMap st.paramBinders st.val ps st hk
    (fun _ _ => rfl)

/-! ## The state at the end of the loop -/

theorem applyAll_result (request : Request) (routeParams : RouteParams) (consumer : Consumer)
    (isMap : Bool) (binders0 : List (String × untypedParamBinder)) (val0 : Val)
    (ps : List (String × Parameter)) :
    ∀ st : LoopState,
      (applyAll request routeParams consumer isMap binders0 val0 ps st).result =
        st.result ++ ps.flatMap (errsAt request routeParams consumer isMap binders0 val0) := by
  induction ps with
  | nil => intro st; simp [applyAll]
  | cons fp rest ih =>
    intro st
    simp only [applyAll, List.flatMap_cons, errsAt]
    cases attemptAt request routeParams consumer isMap binders0 val0 fp with
    | none => simp [ih]
    | some a => simp [ih, applyAttempt, List.append_assoc]

theorem applyAll_trace (request : Request) (routeParams : RouteParams) (consumer : Consumer)
    (isMap : Bool) (binders0 : List (String × untypedParamBinder)) (val0 : Val)
    (ps : List (String × Parameter)) :
    ∀ st : LoopState,
      (applyAll request routeParams consumer isMap binders0 val0 ps st).trace =
        st.trace ++ ps.flatMap (eventsAt request routeParams consumer isMap binders0 val0) := by
  induction ps with
  | nil => intro st; simp [applyAll]
  | cons fp rest ih =>
    intro st
    simp only [applyAll, List.flatMap_cons, eventsAt]
    cases attemptAt request routeParams consumer isMap binders0 val0 fp with
    | none => simp [ih]
    | some a => simp [ih, applyAttempt, List.append_assoc]

theorem applyAll_val (request : Request) (routeParams : RouteParams) (consumer : Consumer)
    (isMap : Bool) (binders0 : List (String × untypedParamBinder)) (val0 : Val)
    (ps : List (String × Parameter)) :
    ∀ st : LoopState,
      (applyAll request routeParams consumer isMap binders0 val0 ps st).val =
        (ps.filterMap (writeAt request routeParams consumer isMap binders0 val0)).foldl
          (fun v kw => v.put kw.1 kw.2) st.val := by
  induction ps with
  | nil => intro st; simp [applyAll]
  | cons fp rest ih =>
    intro st
    simp only [applyAll, List.filterMap_cons, writeAt]
    cases attemptAt request routeParams consumer isMap binders0 val0 fp with
    | none => simp only [ih]
    | some a =>
      cases hs : a.store with
      | none => simp [ih, applyAttempt, hs, writeAt]
      | some v => simp [ih, applyAttempt, hs, writeAt]

/-! ## The whole of `Bind` -/

/-- The state in which `Bind` enters the loop. -/
theorem Bind_unfold (o : untypedRequestBinder) (request : Request) (routeParams : RouteParams)
    (consumer : Consumer) (data : Data) :
    o.Bind request routeParams consumer data =
      match rangeParameters request routeParams consumer
          (decide ((indirectValueOf data).Kind = Kind.Map)) o.Parameters
          { result := [], val := indirectValueOf data, paramBinders := o.paramBinders,
            trace := [] } with
      | none => none
      | some st =>
        some { err := if st.result = [] then none
                      else some (CompositeValidationError st.result),
               final := st } := by
  unfold untypedRequestBinder.Bind
  simp only []
  cases rangeParameters request routeParams consumer
      (decide ((indirectValueOf data).Kind = Kind.Map)) o.Parameters
      { result := [], val := indirectValueOf data, paramBinders := o.paramBinders,
        trace := [] } with
  | none => rfl
  | some st =>
    cases hr : st.result with
    | nil => simp [hr]
    | cons e es => simp [hr]

/-- A call of `Bind` that returns: no turn panicked, and the final state collects the errors,
the events and the writes of the entries in the order of processing. -/
theorem Bind_some (o : untypedRequestBinder) (request : Request) (routeParams : RouteParams)
    (consumer : Consumer) (data : Data) (hk : (mapKeys o.Parameters).Nodup) (r : BindReturn)
    (h : o.Bind request routeParams consumer data = some r) :
    (∀ fp ∈ o.Parameters, ∃ a, attemptOf o request routeParams consumer data fp = some a) ∧
    r.final.result = o.Parameters.flatMap (paramErrors o request routeParams consumer data) ∧
    r.final.trace = o.Parameters.flatMap (paramEvents o request routeParams consumer data) ∧
    r.final.val = (o.Parameters.filterMap (paramWrite o request routeParams consumer data)).foldl
      (fun v kw => v.put kw.1 kw.2) (indirectValueOf data) ∧
    r.err = (if r.final.result = [] then none
             else some (CompositeValidationError r.final.result)) := by
  rw [Bind_unfold, rangeParameters_eq _ _ _ _ _ _ hk] at h
  by_cases hall : (o.Parameters.all fun fp =>
      (attemptAt request routeParams consumer (decide ((indirectValueOf data).Kind = Kind.Map))
        o.paramBinders (indirectValueOf data) fp).isSome) = true
  · simp only [hall, if_true, Option.some.injEq] at h
    subst h
    refine ⟨?_, ?_, ?_, ?_, rfl⟩
    · intro fp hfp
      have := (List.all_eq_true.mp hall) fp hfp
      exact Option.isSome_iff_exists.mp this
    · simp only [applyAll_result, List.nil_append]; rfl
    · simp only [applyAll_trace, List.nil_append]; rfl
    · simp only [applyAll_val]; rfl
  · simp [hall] at h

/-- A call of `Bind` in which no turn panics returns. -/
theorem Bind_returns (o : untypedRequestBinder) (request : Request) (routeParams : RouteParams)
    (consumer : Consumer) (data : Data) (hk : (mapKeys o.Parameters).Nodup)
    (h : ∀ fp ∈ o.Parameters, (attemptOf o request routeParams consumer data fp).isSome = true) :
    ∃ r, o.Bind request routeParams consumer data = some r := by
  rw [Bind_unfold, rangeParameters_eq _ _ _ _ _ _ hk]
  have hall : (o.Parameters.all fun fp =>
      (attemptAt request routeParams consumer (decide ((indirectValueOf data).Kind = Kind.Map))
        o.paramBinders (indirectValueOf data) fp).isSome) = true :=
    List.all_eq_true.mpr h
  simp only [hall, if_true]
  exact ⟨_, rfl⟩

/-- A call of `Bind` in which some turn panics does not return. -/
theorem Bind_panics (o : untypedRequestBinder) (request : Request) (routeParams : RouteParams)
    (consumer : Consumer) (data : Data) (hk : (mapKeys o.Parameters).Nodup)
    (fp : String × Parameter) (hfp : fp ∈ o.Parameters)
    (h : attemptOf o request routeParams consumer data fp = none) :
    o.Bind request routeParams consumer data = none := by
  cases hb : o.Bind request routeParams consumer data with
  | none => rfl
  | some r =>
    obtain ⟨a, ha⟩ := (Bind_some o request routeParams consumer data hk r hb).1 fp hfp
    rw [h] at ha
    cases ha

theorem attempt_isSome_struct (request : Request) (routeParams : RouteParams)
    (consumer : Consumer) (binder0 : untypedParamBinder) (field : Option Value)
    (canStore : Bool) (fieldName : String) (param : Parameter) :
    (attempt request routeParams consumer false binder0 (some field) canStore fieldName
      param).isSome = true := by
  cases field with
  | none => simp [attempt]
  | some target =>
    cases hc : binder0.Bind fieldName request routeParams consumer target with
    | mk written err => cases err <;> simp [attempt, hc]

theorem attempt_isSome_map (request : Request) (routeParams : RouteParams)
    (consumer : Consumer) (binder0 : untypedParamBinder) (field : Option (Option Value))
    (fieldName : String) (param : Parameter) (h : (scratchType binder0 param).isSome = true) :
    (attempt request routeParams consumer true binder0 field true fieldName param).isSome =
      true := by
  obtain ⟨tpe, ht⟩ := Option.isSome_iff_exists.mp h
  cases hc : binder0.Bind binder0.Name request routeParams consumer (zeroValue tpe) with
  | mk written err => cases err <;> simp [attempt, ht, hc]

/-- On a destination that `canBind` accepts no turn of the loop panics. -/
theorem canBind_attemptOf (o : untypedRequestBinder) (request : Request)
    (routeParams : RouteParams) (consumer : Consumer) (data : Data)
    (h : o.canBind data = true) :
    ∀ fp ∈ o.Parameters, (attemptOf o request routeParams consumer data fp).isSome = true := by
  intro fp hfp
  unfold untypedRequestBinder.canBind at h
  unfold attemptOf attemptAt
  cases hv : indirectValueOf data with
  | invalid => simp [hv] at h
  | other v => simp [hv] at h
  | struct fs =>
    simp only [hv] at h
    have h1 := (List.all_eq_true.mp h) fp hfp
    obtain ⟨b, hb⟩ := Option.isSome_iff_exists.mp h1
    simp only [hb, Val.Kind, Val.FieldByName]
    exact attempt_isSome_struct _ _ _ _ _ _ _ _
  | map m =>
    cases m with
    | none => simp [hv] at h
    | some m =>
      simp only [hv] at h
      have h1 := (List.all_eq_true.mp h) fp hfp
      cases hb : mapGet o.paramBinders fp.1 with
      | none => simp [hb] at h1
      | some b =>
        simp only [hb] at h1
        simp only [Val.Kind, Val.canStore, decide_True]
        exact attempt_isSome_map _ _ _ _ _ _ _ h1

theorem flatMap_eq_nil_iff_forall {α β : Type} (l : List α) (f : α → List β) :
    l.flatMap f = [] ↔ ∀ x ∈ l, f x = [] := by
  induction l with
  | nil => simp
  | cons x xs ih => simp [List.flatMap_cons, ih]

/-! ## C1 -/

/-- C1: `Bind` returns nil exactly when no parameter produced an error during the pass, and
otherwise the composite validation error built from the errors of the parameters, each list of
errors taken once, in the order in which the parameters were processed. The call returns on
every destination accepted by `canBind`, and whenever it returns its result is as said. -/
theorem Bind_returns_composite_of_param_errors (o : untypedRequestBinder) (request : Request)
    (routeParams : RouteParams) (consumer : Consumer) (data : Data)
    (hk : (mapKeys o.Parameters).Nodup) :
    (o.canBind data = true → ∃ r, o.Bind request routeParams consumer data = some r) ∧
    ∀ r, o.Bind request routeParams consumer data = some r →
      r.final.result = o.Parameters.flatMap (paramErrors o request routeParams consumer data) ∧
      (r.err = none ↔
        ∀ fp ∈ o.Parameters, paramErrors o request routeParams consumer data fp = []) ∧
      (r.err ≠ none →
        r.err = some (CompositeValidationError
          (o.Parameters.flatMap (paramErrors o request routeParams consumer data)))) := by
  refine ⟨fun hc => Bind_returns o request routeParams consumer data hk
    (canBind_attemptOf o request routeParams consumer data hc), ?_⟩
  intro r hr
  obtain ⟨_, hres, _, _, herr⟩ := Bind_some o request routeParams consumer data hk r hr
  refine ⟨hres, ?_, ?_⟩
  · rw [← flatMap_eq_nil_iff_forall, ← hres, herr]
    by_cases h : r.final.result = [] <;> simp [h]
  · intro hne
    rw [← hres]
    rw [herr] at hne ⊢
    by_cases h : r.final.result = []
    · simp [h] at hne
    · simp [h]

/-- C1, on the sample service. -/
theorem Bind_returns_composite_of_param_errors_witness :
    (mapKeys sampleBinder.Parameters).Nodup ∧
    ((sampleBinder.canBind sampleStruct = true →
        ∃ r, sampleBinder.Bind sampleRequest sampleRouteParams sampleConsumer sampleStruct =
          some r) ∧
     ∀ r, sampleBinder.Bind sampleRequest sampleRouteParams sampleConsumer sampleStruct =
        some r →
      r.final.result = sampleBinder.Parameters.flatMap
        (paramErrors sampleBinder sampleRequest sampleRouteParams sampleConsumer sampleStruct) ∧
      (r.err = none ↔
        ∀ fp ∈ sampleBinder.Parameters,
          paramErrors sampleBinder sampleRequest sampleRouteParams sampleConsumer sampleStruct
            fp = []) ∧
      (r.err ≠ none →
        r.err = some (CompositeValidationError
          (sampleBinder.Parameters.flatMap
            (paramErrors sampleBinder sampleRequest sampleRouteParams sampleConsumer
              sampleStruct))))) :=
  ⟨by decide, Bind_returns_composite_of_param_errors sampleBinder sampleRequest
    sampleRouteParams sampleConsumer sampleStruct (by decide)⟩

/-! ## What a turn of the loop consists of -/

/-- The three ways in which a turn of the loop ends without a panic. -/
theorem attempt_spec (request : Request) (routeParams : RouteParams) (consumer : Consumer)
    (isMap : Bool) (binder0 : untypedParamBinder) (field : Option (Option Value))
    (canStore : Bool) (fieldName : String) (param : Parameter) (a : Attempt)
    (h : attempt request routeParams consumer isMap binder0 field canStore fieldName param =
      some a) :
    a.binder = (if isMap then binder0 else { binder0 with Name := fieldName }) ∧
    ((isMap = false ∧ field = some none ∧ a.target = none ∧ a.call = none ∧
        a.errs = [GoError.New 500 "parameter name %q is an unknown field" [fieldName]] ∧
        a.events = [] ∧ a.store = none) ∨
     (∃ target written err,
        a.target = some target ∧
        a.binder.Bind a.binder.Name request routeParams consumer target = (written, some err) ∧
        a.call = some (written, some err) ∧ a.errs = [err] ∧
        a.events = [Event.bind fieldName target] ∧
        a.store = (if isMap then none else some written)) ∨
     (∃ target written,
        a.target = some target ∧
        a.binder.Bind a.binder.Name request routeParams consumer target = (written, none) ∧
        a.call = some (written, none) ∧
        a.errs = (validateTarget a.binder fieldName written).1 ∧
        a.events = [Event.bind fieldName target] ++
          (validateTarget a.binder fieldName written).2 ++
          (if isMap then [Event.setMapIndex fieldName param.Name written] else []) ∧
        a.store = some written ∧ (isMap = true → canStore = true))) ∧
    (∀ target, a.target = some target →
      (isMap = true ∧ ∃ tpe, scratchType binder0 param = some tpe ∧ target = zeroValue tpe) ∨
      (isMap = false ∧ field = some (some target))) := by
  unfold attempt at h
  cases isMap with
  | true =>
    cases ht : scratchType binder0 param with
    | none => simp [ht] at h
    | some tpe =>
      cases hc : binder0.Bind binder0.Name request routeParams consumer (zeroValue tpe) with
      | mk written err =>
        cases err with
        | some e =>
          simp only [ht, hc, if_true, Option.map_some', Option.some.injEq] at h
          subst h
          simp [hc]
        | none =>
          cases canStore with
          | false => simp [ht, hc] at h
          | true =>
            simp only [ht, hc, if_true, Option.map_some', Option.some.injEq, Bool.not_true,
              Bool.and_false, Bool.false_eq_true, if_false] at h
            subst h
            simp [hc]
  | false =>
    cases field with
    | none => simp at h
    | some field =>
      cases field with
      | none =>
        simp only [Bool.false_eq_true, if_false, Option.some.injEq] at h
        subst h
        simp
      | some target =>
        cases hc : binder0.Bind fieldName request routeParams consumer target with
        | mk written err =>
          cases err with
          | some e =>
            simp only [Bool.false_eq_true, if_false, hc, Option.some.injEq] at h
            subst h
            simp [hc]
            exact ⟨written, e, ⟨rfl, rfl⟩, rfl, rfl⟩
          | none =>
            simp only [Bool.false_eq_true, if_false, hc, Option.some.injEq, Bool.false_and] at h
            subst h
            simp [hc]

theorem entry_eq_of_key_eq (ps : List (String × Parameter)) (hk : (mapKeys ps).Nodup)
    (fp g : String × Parameter) (hfp : fp ∈ ps) (hg : g ∈ ps) (h : fp.1 = g.1) : fp = g := by
  have h1 := mapGet_of_mem ps fp.1 fp.2 hk hfp
  have h2 := mapGet_of_mem ps g.1 g.2 hk hg
  rw [h, h2] at h1
  exact Prod.ext h (Option.some.inj h1).symm

theorem validateTarget_errs_length (binder : untypedParamBinder) (fieldName : String)
    (written : Value) :
    (validateTarget binder fieldName written).1.length =
      if (match binder.validator with
          | none => false
          | some validate =>
            match validate written with
            | none => false
            | some rr => rr.HasErrors) = true then 1 else 0 := by
  unfold validateTarget
  cases binder.validator with
  | none => simp
  | some validate =>
    cases hv : validate written with
    | none => simp [hv]
    | some rr => cases h : rr.HasErrors <;> simp [hv, h]

theorem validateTarget_events (binder : untypedParamBinder) (fieldName : String)
    (written : Value) :
    ∀ e ∈ (validateTarget binder fieldName written).2, e = Event.validate fieldName written := by
  unfold validateTarget
  cases binder.validator with
  | none => simp
  | some validate =>
    cases hv : validate written with
    | none => simp [hv]
    | some rr => cases h : rr.HasErrors <;> simp [hv, h]

/-- A turn of the loop appends one error when the parameter fails and none otherwise. -/
theorem attempt_errs_length (request : Request) (routeParams : RouteParams)
    (consumer : Consumer) (isMap : Bool) (binder0 : untypedParamBinder)
    (field : Option (Option Value)) (canStore : Bool) (fieldName : String) (param : Parameter)
    (a : Attempt)
    (h : attempt request routeParams consumer isMap binder0 field canStore fieldName param =
      some a) :
    a.errs.length =
      if (a.unknownField || a.binderError || a.validationError) = true then 1 else 0 := by
  obtain ⟨_, hcases, _⟩ := attempt_spec _ _ _ _ _ _ _ _ _ _ h
  rcases hcases with ⟨_, _, ht, _, he, _, _⟩ | ⟨t, w, e, ht, _, hc, he, _, _⟩ |
    ⟨t, w, ht, _, hc, he, _, _, _⟩
  · simp [Attempt.unknownField, ht, he]
  · simp [Attempt.unknownField, Attempt.binderError, ht, hc, he]
  · rw [he, validateTarget_errs_length]
    simp [Attempt.unknownField, Attempt.binderError, Attempt.validationError, ht, hc]

/-- Every ghost event of a turn is recorded under the key of its entry. -/
theorem attempt_events_fieldName (request : Request) (routeParams : RouteParams)
    (consumer : Consumer) (isMap : Bool) (binder0 : untypedParamBinder)
    (field : Option (Option Value)) (canStore : Bool) (fieldName : String) (param : Parameter)
    (a : Attempt)
    (h : attempt request routeParams consumer isMap binder0 field canStore fieldName param =
      some a) :
    ∀ e ∈ a.events, e.fieldName = fieldName := by
  obtain ⟨_, hcases, _⟩ := attempt_spec _ _ _ _ _ _ _ _ _ _ h
  intro e he
  rcases hcases with ⟨_, _, _, _, _, hev, _⟩ | ⟨t, w, e1, _, _, _, _, hev, _⟩ |
    ⟨t, w, _, _, _, _, hev, _, _⟩
  · simp [hev] at he
  · simp [hev] at he
    subst he
    rfl
  · rw [hev] at he
    simp only [List.mem_append, List.mem_singleton] at he
    rcases he with (he | he) | he
    · subst he; rfl
    · rw [validateTarget_events _ _ _ e he]; rfl
    · cases isMap with
      | true => simp at he; subst he; rfl
      | false => simp at he

theorem attemptOf_some_attempt (o : untypedRequestBinder) (request : Request)
    (routeParams : RouteParams) (consumer : Consumer) (data : Data) (fp : String × Parameter)
    (a : Attempt) (h : attemptOf o request routeParams consumer data fp = some a) :
    ∃ binder0, mapGet o.paramBinders fp.1 = some binder0 ∧
      attempt request routeParams consumer (decide ((indirectValueOf data).Kind = Kind.Map))
        binder0 ((indirectValueOf data).FieldByName fp.1) (indirectValueOf data).canStore
        fp.1 fp.2 = some a := by
  unfold attemptOf attemptAt at h
  cases hb : mapGet o.paramBinders fp.1 with
  | none => simp [hb] at h
  | some b => exact ⟨b, rfl, by simpa [hb] using h⟩

theorem paramEvents_fieldName (o : untypedRequestBinder) (request : Request)
    (routeParams : RouteParams) (consumer : Consumer) (data : Data) (fp : String × Parameter) :
    ∀ e ∈ paramEvents o request routeParams consumer data fp, e.fieldName = fp.1 := by
  intro e he
  unfold paramEvents eventsAt at he
  cases ha : attemptAt request routeParams consumer
      (decide ((indirectValueOf data).Kind = Kind.Map)) o.paramBinders (indirectValueOf data)
      fp with
  | none => simp [ha] at he
  | some a =>
    simp only [ha] at he
    obtain ⟨b, _, hb⟩ := attemptOf_some_attempt o request routeParams consumer data fp a ha
    exact attempt_events_fieldName _ _ _ _ _ _ _ _ _ _ hb e he

theorem paramErrors_length (o : untypedRequestBinder) (request : Request)
    (routeParams : RouteParams) (consumer : Consumer) (data : Data) (fp : String × Parameter) :
    (paramErrors o request routeParams consumer data fp).length =
      if fails o request routeParams consumer data fp = true then 1 else 0 := by
  unfold paramErrors errsAt fails
  cases ha : attemptAt request routeParams consumer
      (decide ((indirectValueOf data).Kind = Kind.Map)) o.paramBinders (indirectValueOf data)
      fp with
  | none =>
    have : attemptOf o request routeParams consumer data fp = none := ha
    simp [this]
  | some a =>
    have h1 : attemptOf o request routeParams consumer data fp = some a := ha
    obtain ⟨b, _, hb⟩ := attemptOf_some_attempt o request routeParams consumer data fp a ha
    simp only [h1]
    exact attempt_errs_length _ _ _ _ _ _ _ _ _ _ hb

theorem length_flatMap_eq_countP {α β : Type} (l : List α) (f : α → List β) (p : α → Bool)
    (h : ∀ x ∈ l, (f x).length = if p x = true then 1 else 0) :
    (l.flatMap f).length = l.countP p := by
  induction l with
  | nil => simp
  | cons x xs ih =>
    have hx := h x (List.mem_cons_self _ _)
    have hxs := ih (fun y hy => h y (List.mem_cons_of_mem _ hy))
    rw [List.flatMap_cons, List.length_append, hx, hxs, List.countP_cons]
    cases p x
    · simp
    · simp; omega

/-- The events of the entry with key `fp.1` are the events of the trace recorded under that
key. -/
theorem mem_trace_iff (o : untypedRequestBinder) (request : Request)
    (routeParams : RouteParams) (consumer : Consumer) (data : Data)
    (hk : (mapKeys o.Parameters).Nodup) (fp : String × Parameter) (hfp : fp ∈ o.Parameters)
    (e : Event) (he : e.fieldName = fp.1) :
    e ∈ o.Parameters.flatMap (paramEvents o request routeParams consumer data) ↔
      e ∈ paramEvents o request routeParams consumer data fp := by
  constructor
  · intro h
    obtain ⟨g, hg, heg⟩ := List.mem_flatMap.mp h
    have h1 := paramEvents_fieldName o request routeParams consumer data g e heg
    have : g = fp := entry_eq_of_key_eq o.Parameters hk g fp hg hfp (h1.symm.trans he)
    rw [← this]
    exact heg
  · intro h
    exact List.mem_flatMap.mpr ⟨fp, hfp, h⟩

theorem paramEvents_of_attemptOf (o : untypedRequestBinder) (request : Request)
    (routeParams : RouteParams) (consumer : Consumer) (data : Data) (fp : String × Parameter)
    (a : Attempt) (h : attemptOf o request routeParams consumer data fp = some a) :
    paramEvents o request routeParams consumer data fp = a.events := by
  have h1 : attemptAt request routeParams consumer
      (decide ((indirectValueOf data).Kind = Kind.Map)) o.paramBinders (indirectValueOf data)
      fp = some a := h
  simp [paramEvents, eventsAt, h1]

theorem paramErrors_of_attemptOf (o : untypedRequestBinder) (request : Request)
    (routeParams : RouteParams) (consumer : Consumer) (data : Data) (fp : String × Parameter)
    (a : Attempt) (h : attemptOf o request routeParams consumer data fp = some a) :
    paramErrors o request routeParams consumer data fp = a.errs := by
  have h1 : attemptAt request routeParams consumer
      (decide ((indirectValueOf data).Kind = Kind.Map)) o.paramBinders (indirectValueOf data)
      fp = some a := h
  simp [paramErrors, errsAt, h1]

/-! ## C3 -/

/-- C3: when `Bind` returns, every parameter has contributed one error if it fails (unknown
field, Field Binder error, or validation result with errors) and none otherwise, so that the
composite error has as many entries as there are failing parameters, and nil is returned when
there is none; a parameter whose Field Binder returned an error is not validated. -/
theorem composite_has_one_entry_per_failing_parameter (o : untypedRequestBinder)
    (request : Request) (routeParams : RouteParams) (consumer : Consumer) (data : Data)
    (r : BindReturn) (hk : (mapKeys o.Parameters).Nodup)
    (hr : o.Bind request routeParams consumer data = some r) :
    (∀ fp ∈ o.Parameters,
      (paramErrors o request routeParams consumer data fp).length =
        if fails o request routeParams consumer data fp = true then 1 else 0) ∧
    r.final.result = o.Parameters.flatMap (paramErrors o request routeParams consumer data) ∧
    (r.err = none →
      o.Parameters.countP (fails o request routeParams consumer data) = 0) ∧
    (∀ c, r.err = some c →
      c.Errors = o.Parameters.flatMap (paramErrors o request routeParams consumer data) ∧
      c.Errors.length = o.Parameters.countP (fails o request routeParams consumer data)) ∧
    (∀ fp ∈ o.Parameters, ∀ a, attemptOf o request routeParams consumer data fp = some a →
      a.binderError = true → ∀ v, Event.validate fp.1 v ∉ r.final.trace) := by
  obtain ⟨_, hres, htr, _, herr⟩ := Bind_some o request routeParams consumer data hk r hr
  have hlen : r.final.result.length =
      o.Parameters.countP (fails o request routeParams consumer data) := by
    rw [hres]
    exact length_flatMap_eq_countP _ _ _
      (fun fp _ => paramErrors_length o request routeParams consumer data fp)
  refine ⟨fun fp _ => paramErrors_length o request routeParams consumer data fp, hres, ?_, ?_,
    ?_⟩
  · intro hnone
    rw [herr] at hnone
    by_cases h : r.final.result = []
    · rw [← hlen, h]; rfl
    · simp [h] at hnone
  · intro c hc
    rw [herr] at hc
    by_cases h : r.final.result = []
    · simp [h] at hc
    · simp only [h, if_false, Option.some.injEq] at hc
      subst hc
      exact ⟨hres, hlen⟩
  · intro fp hfp a ha hbe v hmem
    rw [htr, mem_trace_iff o request routeParams consumer data hk fp hfp
      (Event.validate fp.1 v) rfl,
      paramEvents_of_attemptOf o request routeParams consumer data fp a ha] at hmem
    obtain ⟨b, _, hb⟩ := attemptOf_some_attempt o request routeParams consumer data fp a ha
    obtain ⟨_, hcases, _⟩ := attempt_spec _ _ _ _ _ _ _ _ _ _ hb
    rcases hcases with ⟨_, _, _, hc, _, _, _⟩ | ⟨t, w, e, _, _, _, _, hev, _⟩ |
      ⟨t, w, _, _, hc, _, _, _, _⟩
    · simp [Attempt.binderError, hc] at hbe
    · simp [hev] at hmem
    · simp [Attempt.binderError, hc] at hbe

/-- C3, on the sample service and its struct, where three of the four parameters fail. -/
theorem composite_has_one_entry_per_failing_parameter_witness :
    (mapKeys sampleBinder.Parameters).Nodup ∧
    ∃ r, sampleBinder.Bind sampleRequest sampleRouteParams sampleConsumer sampleStruct =
        some r ∧
      (∀ fp ∈ sampleBinder.Parameters,
        (paramErrors sampleBinder sampleRequest sampleRouteParams sampleConsumer sampleStruct
          fp).length =
          if fails sampleBinder sampleRequest sampleRouteParams sampleConsumer sampleStruct
            fp = true then 1 else 0) ∧
      r.final.result = sampleBinder.Parameters.flatMap
        (paramErrors sampleBinder sampleRequest sampleRouteParams sampleConsumer sampleStruct) ∧
      (r.err = none →
        sampleBinder.Parameters.countP
          (fails sampleBinder sampleRequest sampleRouteParams sampleConsumer sampleStruct) =
          0) ∧
      (∀ c, r.err = some c →
        c.Errors = sampleBinder.Parameters.flatMap
          (paramErrors sampleBinder sampleRequest sampleRouteParams sampleConsumer
            sampleStruct) ∧
        c.Errors.length = sampleBinder.Parameters.countP
          (fails sampleBinder sampleRequest sampleRouteParams sampleConsumer sampleStruct)) ∧
      (∀ fp ∈ sampleBinder.Parameters, ∀ a,
        attemptOf sampleBinder sampleRequest sampleRouteParams sampleConsumer sampleStruct fp =
          some a →
        a.binderError = true → ∀ v, Event.validate fp.1 v ∉ r.final.trace) := by
  refine ⟨by decide, ?_⟩
  obtain ⟨r, hr⟩ := Bind_returns sampleBinder sampleRequest sampleRouteParams sampleConsumer
    sampleStruct (by decide) (canBind_attemptOf _ _ _ _ _ (by decide))
  exact ⟨r, hr, composite_has_one_entry_per_failing_parameter sampleBinder sampleRequest
    sampleRouteParams sampleConsumer sampleStruct r (by decide) hr⟩

/-! ## C4 -/

theorem attemptOf_struct (o : untypedRequestBinder) (request : Request)
    (routeParams : RouteParams) (consumer : Consumer) (fs : List (String × Value))
    (fp : String × Parameter) (a : Attempt)
    (h : attemptOf o request routeParams consumer (Data.ptr (some (Pointee.struct fs))) fp =
      some a) :
    ∃ binder0, mapGet o.paramBinders fp.1 = some binder0 ∧
      attempt request routeParams consumer false binder0 (some (mapGet fs fp.1)) false
        fp.1 fp.2 = some a := by
  obtain ⟨b, hb, ha⟩ := attemptOf_some_attempt o request routeParams consumer _ fp a h
  exact ⟨b, hb, by simpa [indirectValueOf, Val.Kind, Val.FieldByName, Val.canStore] using ha⟩

/-- C4: on a struct destination that has no field named after the field name of a parameter,
`Bind` returns (it does not panic, provided every key has its Field Binder), the parameter
contributes exactly the error `errors.New(500, "parameter name %q is an unknown field",
fieldName)`, which is an entry of the composite error; neither the Field Binder nor the
validator of that parameter is called, and the Field Binder of every parameter that has a
field is called on that field. -/
theorem unknown_field_is_recorded_and_pass_continues (o : untypedRequestBinder)
    (request : Request) (routeParams : RouteParams) (consumer : Consumer)
    (fs : List (String × Value)) (fp : String × Parameter)
    (hk : (mapKeys o.Parameters).Nodup)
    (hb : o.canBind (Data.ptr (some (Pointee.struct fs))) = true)
    (hfp : fp ∈ o.Parameters) (hno : mapGet fs fp.1 = none) :
    ∃ r, o.Bind request routeParams consumer (Data.ptr (some (Pointee.struct fs))) = some r ∧
      paramErrors o request routeParams consumer (Data.ptr (some (Pointee.struct fs))) fp =
        [GoError.New 500 "parameter name %q is an unknown field" [fp.1]] ∧
      (∃ c, r.err = some c ∧
        GoError.New 500 "parameter name %q is an unknown field" [fp.1] ∈ c.Errors) ∧
      (∀ e ∈ r.final.trace, e.fieldName ≠ fp.1) ∧
      (∀ g ∈ o.Parameters, ∀ t, mapGet fs g.1 = some t →
        Event.bind g.1 t ∈ r.final.trace) := by
  obtain ⟨r, hr⟩ := Bind_returns o request routeParams consumer _ hk
    (canBind_attemptOf o request routeParams consumer _ hb)
  obtain ⟨hall, hres, htr, _, herr⟩ := Bind_some o request routeParams consumer _ hk r hr
  obtain ⟨a, ha⟩ := hall fp hfp
  obtain ⟨b, _, hat⟩ := attemptOf_struct o request routeParams consumer fs fp a ha
  obtain ⟨_, hcases, htgt⟩ := attempt_spec _ _ _ _ _ _ _ _ _ _ hat
  have hshape : a.errs = [GoError.New 500 "parameter name %q is an unknown field" [fp.1]] ∧
      a.events = [] := by
    rcases hcases with ⟨_, _, _, _, he, hev, _⟩ | ⟨t, w, e, ht, _, _, _, _, _⟩ |
      ⟨t, w, ht, _, _, _, _, _, _⟩
    · exact ⟨he, hev⟩
    · rcases htgt t ht with ⟨h1, _⟩ | ⟨_, h2⟩
      · cases h1
      · rw [hno] at h2; cases h2
    · rcases htgt t ht with ⟨h1, _⟩ | ⟨_, h2⟩
      · cases h1
      · rw [hno] at h2; cases h2
  have herrs := paramErrors_of_attemptOf o request routeParams consumer _ fp a ha
  rw [hshape.1] at herrs
  have hmem : GoError.New 500 "parameter name %q is an unknown field" [fp.1] ∈
      r.final.result := by
    rw [hres]
    exact List.mem_flatMap.mpr ⟨fp, hfp, by rw [herrs]; exact List.mem_singleton.mpr rfl⟩
  refine ⟨r, hr, herrs, ?_, ?_, ?_⟩
  · have hne : r.final.result ≠ [] := List.ne_nil_of_mem hmem
    refine ⟨CompositeValidationError r.final.result, ?_, hmem⟩
    rw [herr]; simp [hne]
  · intro e he hef
    rw [htr, mem_trace_iff o request routeParams consumer _ hk fp hfp e hef,
      paramEvents_of_attemptOf o request routeParams consumer _ fp a ha, hshape.2] at he
    cases he
  · intro g hg t hgt
    obtain ⟨a1, ha1⟩ := hall g hg
    obtain ⟨b1, _, hat1⟩ := attemptOf_struct o request routeParams consumer fs g a1 ha1
    obtain ⟨_, hcases1, htgt1⟩ := attempt_spec _ _ _ _ _ _ _ _ _ _ hat1
    rw [htr]
    refine List.mem_flatMap.mpr ⟨g, hg, ?_⟩
    rw [paramEvents_of_attemptOf o request routeParams consumer _ g a1 ha1]
    have htarget : ∀ target, a1.target = some target → target = t := by
      intro target htg
      rcases htgt1 target htg with ⟨h1, _⟩ | ⟨_, h2⟩
      · cases h1
      · rw [hgt] at h2
        exact (Option.some.inj (Option.some.inj h2)).symm
    rcases hcases1 with ⟨_, hf, _, _, _, _, _⟩ | ⟨t1, w, e, ht1, _, _, _, hev, _⟩ |
      ⟨t1, w, ht1, _, _, _, hev, _, _⟩
    · rw [hgt] at hf; cases hf
    · rw [hev, htarget t1 ht1]; exact List.mem_singleton.mpr rfl
    · rw [hev, htarget t1 ht1]; simp

/-- C4, on the sample service, whose struct has no field `Tags`. -/
theorem unknown_field_is_recorded_and_pass_continues_witness :
    ((mapKeys sampleBinder.Parameters).Nodup ∧
      sampleBinder.canBind (Data.ptr (some (Pointee.struct sampleFields))) = true ∧
      sampleTags ∈ sampleBinder.Parameters ∧ mapGet sampleFields sampleTags.1 = none) ∧
    ∃ r, sampleBinder.Bind sampleRequest sampleRouteParams sampleConsumer
        (Data.ptr (some (Pointee.struct sampleFields))) = some r ∧
      paramErrors sampleBinder sampleRequest sampleRouteParams sampleConsumer
        (Data.ptr (some (Pointee.struct sampleFields))) sampleTags =
        [GoError.New 500 "parameter name %q is an unknown field" [sampleTags.1]] ∧
      (∃ c, r.err = some c ∧
        GoError.New 500 "parameter name %q is an unknown field" [sampleTags.1] ∈ c.Errors) ∧
      (∀ e ∈ r.final.trace, e.fieldName ≠ sampleTags.1) ∧
      (∀ g ∈ sampleBinder.Parameters, ∀ t, mapGet sampleFields g.1 = some t →
        Event.bind g.1 t ∈ r.final.trace) :=
  ⟨⟨by decide, by decide, by decide, by decide⟩,
    unknown_field_is_recorded_and_pass_continues sampleBinder sampleRequest sampleRouteParams
      sampleConsumer sampleFields sampleTags (by decide) (by decide) (by decide) (by decide)⟩

/-! ## C7 -/

theorem bindParam_of_not_struct (request : Request) (routeParams : RouteParams)
    (consumer : Consumer) (st : LoopState) (fieldName : String) (param : Parameter)
    (hs : st.val.Kind ≠ Kind.Struct) :
    bindParam request routeParams consumer false st fieldName param = none := by
  have hf : st.val.FieldByName fieldName = none := by
    cases hv : st.val with
    | struct fs => rw [hv] at hs; exact absurd rfl hs
    | map m => rfl
    | invalid => rfl
    | other v => rfl
  rw [bindParam_eq]
  cases mapGet st.paramBinders fieldName with
  | none => rfl
  | some b => simp [attempt, hf]

/-- C7, as the code has it: on a destination that after pointer indirection is neither a map
nor a struct, `Bind` makes no check of the shape and returns no internal error: with at least
one parameter the call panics in the first turn of the loop, and without parameters it returns
nil and leaves the destination as it was. -/
theorem Bind_on_unusable_destination (o : untypedRequestBinder) (request : Request)
    (routeParams : RouteParams) (consumer : Consumer) (data : Data)
    (hm : (indirectValueOf data).Kind ≠ Kind.Map)
    (hs : (indirectValueOf data).Kind ≠ Kind.Struct) :
    (o.Parameters ≠ [] → o.Bind request routeParams consumer data = none) ∧
    (o.Parameters = [] →
      ∃ r, o.Bind request routeParams consumer data = some r ∧ r.err = none ∧
        r.final.val = indirectValueOf data) := by
  have hdec : decide ((indirectValueOf data).Kind = Kind.Map) = false := by simp [hm]
  constructor
  · intro hne
    rw [Bind_unfold, hdec]
    cases hp : o.Parameters with
    | nil => exact absurd hp hne
    | cons fp rest =>
      obtain ⟨f, p⟩ := fp
      simp only [rangeParameters]
      rw [bindParam_of_not_struct _ _ _ _ _ _ hs]
  · intro he
    rw [Bind_unfold, he]
    exact ⟨_, rfl, rfl, rfl⟩

/-- C7 as amended, on the sample service and an integer destination. -/
theorem Bind_on_unusable_destination_witness :
    ((indirectValueOf (Data.other (zeroValue GoType.int64))).Kind ≠ Kind.Map ∧
      (indirectValueOf (Data.other (zeroValue GoType.int64))).Kind ≠ Kind.Struct) ∧
    (sampleBinder.Parameters ≠ [] →
      sampleBinder.Bind sampleRequest sampleRouteParams sampleConsumer
        (Data.other (zeroValue GoType.int64)) = none) ∧
    (sampleBinder.Parameters = [] →
      ∃ r, sampleBinder.Bind sampleRequest sampleRouteParams sampleConsumer
          (Data.other (zeroValue GoType.int64)) = some r ∧ r.err = none ∧
        r.final.val = indirectValueOf (Data.other (zeroValue GoType.int64))) :=
  ⟨⟨by decide, by decide⟩,
    Bind_on_unusable_destination sampleBinder sampleRequest sampleRouteParams sampleConsumer
      (Data.other (zeroValue GoType.int64)) (by decide) (by decide)⟩

/-- C7 fails: on an integer destination the sample service panics instead of returning an
internal error, and a request binder without parameters returns nil, which is success. -/
theorem Bind_on_integer_destination_panics_or_succeeds :
    sampleBinder.Bind sampleRequest sampleRouteParams sampleConsumer
        (Data.other (zeroValue GoType.int64)) = none ∧
    ((newUntypedRequestBinder sampleParamBinder [] ⟨1⟩ ⟨1⟩).Bind sampleRequest
        sampleRouteParams sampleConsumer (Data.other (zeroValue GoType.int64))).map
      (fun r => r.err) = some none :=
  ⟨rfl, rfl⟩

/-! ## The contents of the destination at the end of the loop -/

theorem get_put_of_ne (val : Val) (key k : String) (v : Value) (h : key ≠ k) :
    (val.put key v).get k = val.get k := by
  cases val with
  | map m =>
    cases m with
    | none => rfl
    | some m => simp [Val.put, Val.get, mapGet_mapSet_of_ne _ _ _ _ h]
  | struct fs => simp [Val.put, Val.get, mapGet_setField_of_ne _ _ _ _ h]
  | _ => rfl

theorem get_put_self (val : Val) (key : String) (v : Value)
    (h : val.canStore = true ∨ (val.get key).isSome = true) :
    (val.put key v).get key = some v := by
  cases val with
  | map m =>
    cases m with
    | none => simp [Val.canStore, Val.get] at h
    | some m => simp [Val.put, Val.get, mapGet_mapSet_self]
  | struct fs =>
    have h1 : mapGet fs key ≠ none := by
      rcases h with h | h
      · simp [Val.canStore] at h
      · intro h2
        simp [Val.get, h2] at h
    simp [Val.put, Val.get, mapGet_setField_self _ _ _ h1]
  | invalid => simp [Val.canStore, Val.get] at h
  | other w => simp [Val.canStore, Val.get] at h

theorem get_foldl_put_of_not_mem (writes : List (String × Value)) (k : String) :
    ∀ val : Val, k ∉ writes.map Prod.fst →
      (writes.foldl (fun v kw => v.put kw.1 kw.2) val).get k = val.get k := by
  induction writes with
  | nil => intro val _; rfl
  | cons kw rest ih =>
    intro val hk
    simp only [List.map_cons, List.mem_cons, not_or] at hk
    simp only [List.foldl_cons]
    rw [ih _ hk.2]
    exact get_put_of_ne _ _ _ _ (fun h => hk.1 h.symm)

theorem get_foldl_put_of_mem (writes : List (String × Value)) (k : String) (w : Value) :
    ∀ val : Val, (k, w) ∈ writes → (∀ kw ∈ writes, kw.1 = k → kw = (k, w)) →
      (val.canStore = true ∨ (val.get k).isSome = true) →
      (writes.foldl (fun v kw => v.put kw.1 kw.2) val).get k = some w := by
  induction writes with
  | nil => intro val h; simp at h
  | cons kw rest ih =>
    intro val hmem huniq hacc
    simp only [List.foldl_cons]
    have huniq1 : ∀ x ∈ rest, x.1 = k → x = (k, w) :=
      fun x hx => huniq x (List.mem_cons_of_mem _ hx)
    by_cases hkey : kw.1 = k
    · have hkw : kw = (k, w) := huniq kw (List.mem_cons_self _ _) hkey
      subst hkw
      by_cases hin : (k, w) ∈ rest
      · refine ih _ hin huniq1 ?_
        exact Or.inr (by rw [get_put_self _ _ _ hacc]; rfl)
      · have hnot : k ∉ rest.map Prod.fst := by
          intro hk
          obtain ⟨x, hx, hxk⟩ := List.mem_map.mp hk
          exact hin (huniq1 x hx hxk ▸ hx)
        rw [get_foldl_put_of_not_mem _ _ _ hnot]
        exact get_put_self _ _ _ hacc
    · have hin : (k, w) ∈ rest := by
        rcases List.mem_cons.mp hmem with h | h
        · exact absurd (by rw [← h]) hkey
        · exact h
      refine ih _ hin huniq1 ?_
      rcases hacc with h | h
      · exact Or.inl (by rw [canStore_put]; exact h)
      · exact Or.inr (by rw [get_put_of_ne _ _ _ _ hkey]; exact h)

theorem get_of_FieldByName (val : Val) (name : String) (t : Value)
    (h : val.FieldByName name = some (some t)) : val.get name = some t := by
  cases val with
  | struct fs => simpa [Val.FieldByName, Val.get] using h
  | map m => cases m <;> simp [Val.FieldByName] at h
  | invalid => simp [Val.FieldByName] at h
  | other v => simp [Val.FieldByName] at h

theorem paramWrite_of_attemptOf (o : untypedRequestBinder) (request : Request)
    (routeParams : RouteParams) (consumer : Consumer) (data : Data) (fp : String × Parameter)
    (a : Attempt) (h : attemptOf o request routeParams consumer data fp = some a) :
    paramWrite o request routeParams consumer data fp =
      a.store.map (fun v =>
        (slotKey (decide ((indirectValueOf data).Kind = Kind.Map)) fp.1 fp.2, v)) := by
  have h1 : attemptAt request routeParams consumer
      (decide ((indirectValueOf data).Kind = Kind.Map)) o.paramBinders (indirectValueOf data)
      fp = some a := h
  unfold paramWrite writeAt
  rw [h1]
  cases hs : a.store <;> simp [hs]

theorem paramWrite_key (o : untypedRequestBinder) (request : Request)
    (routeParams : RouteParams) (consumer : Consumer) (data : Data) (fp : String × Parameter)
    (kw : String × Value) (h : paramWrite o request routeParams consumer data fp = some kw) :
    kw.1 = slotKey (decide ((indirectValueOf data).Kind = Kind.Map)) fp.1 fp.2 := by
  unfold paramWrite writeAt at h
  cases ha : attemptAt request routeParams consumer
      (decide ((indirectValueOf data).Kind = Kind.Map)) o.paramBinders (indirectValueOf data)
      fp with
  | none => simp [ha] at h
  | some a =>
    cases hs : a.store with
    | none => simp [ha, hs] at h
    | some v =>
      simp only [ha, hs, Option.some.injEq] at h
      rw [← h]

/-- The slot of an entry at the end of a call of `Bind` that returns, when no other entry has
the same slot: it holds the value that the turn of the entry left there, and what it held
before the call when that turn did not write. -/
theorem final_get (o : untypedRequestBinder) (request : Request) (routeParams : RouteParams)
    (consumer : Consumer) (data : Data) (hk : (mapKeys o.Parameters).Nodup) (r : BindReturn)
    (hr : o.Bind request routeParams consumer data = some r) (fp : String × Parameter)
    (hfp : fp ∈ o.Parameters)
    (huniq : ∀ g ∈ o.Parameters,
      slotKey (decide ((indirectValueOf data).Kind = Kind.Map)) g.1 g.2 =
        slotKey (decide ((indirectValueOf data).Kind = Kind.Map)) fp.1 fp.2 → g = fp)
    (a : Attempt) (ha : attemptOf o request routeParams consumer data fp = some a) :
    r.final.val.get (slotKey (decide ((indirectValueOf data).Kind = Kind.Map)) fp.1 fp.2) =
      match a.store with
      | some w => some w
      | none =>
        (indirectValueOf data).get
          (slotKey (decide ((indirectValueOf data).Kind = Kind.Map)) fp.1 fp.2) := by
  obtain ⟨_, _, _, hval, _⟩ := Bind_some o request routeParams consumer data hk r hr
  have hpw := paramWrite_of_attemptOf o request routeParams consumer data fp a ha
  have hfrom : ∀ kw ∈ o.Parameters.filterMap (paramWrite o request routeParams consumer data),
      kw.1 = slotKey (decide ((indirectValueOf data).Kind = Kind.Map)) fp.1 fp.2 →
      paramWrite o request routeParams consumer data fp = some kw := by
    intro kw hkw hkey
    obtain ⟨g, hg, hgw⟩ := List.mem_filterMap.mp hkw
    have h1 := paramWrite_key o request routeParams consumer data g kw hgw
    have : g = fp := huniq g hg (h1.symm.trans hkey)
    rw [← this]
    exact hgw
  rw [hval]
  cases hs : a.store with
  | none =>
    rw [hs] at hpw
    simp only []
    apply get_foldl_put_of_not_mem
    intro hmem
    obtain ⟨kw, hkw, hkey⟩ := List.mem_map.mp hmem
    have := hfrom kw hkw hkey
    rw [hpw] at this
    cases this
  | some w =>
    rw [hs] at hpw
    simp only []
    apply get_foldl_put_of_mem
    · exact List.mem_filterMap.mpr ⟨fp, hfp, hpw⟩
    · intro kw hkw hkey
      have := hfrom kw hkw hkey
      rw [hpw] at this
      exact (Option.some.inj this).symm
    · obtain ⟨b, _, hat⟩ := attemptOf_some_attempt o request routeParams consumer data fp a ha
      obtain ⟨_, hcases, htgt⟩ := attempt_spec _ _ _ _ _ _ _ _ _ _ hat
      cases hmap : decide ((indirectValueOf data).Kind = Kind.Map) with
      | true =>
        rw [hmap] at hcases
        rcases hcases with ⟨h1, _⟩ | ⟨t, w1, e, _, _, _, _, _, hst⟩ |
          ⟨t, w1, _, _, _, _, _, _, hcs⟩
        · cases h1
        · rw [hs] at hst; simp at hst
        · exact Or.inl (hcs rfl)
      | false =>
        rw [hmap] at htgt
        have htarget : ∃ t, a.target = some t := by
          rcases hcases with ⟨_, _, _, _, _, _, hst⟩ | ⟨t, w1, e, ht, _⟩ | ⟨t, w1, ht, _⟩
          · rw [hs] at hst; cases hst
          · exact ⟨t, ht⟩
          · exact ⟨t, ht⟩
        obtain ⟨t, ht⟩ := htarget
        rcases htgt t ht with ⟨h1, _⟩ | ⟨_, h2⟩
        · cases h1
        · refine Or.inr ?_
          simp only [slotKey, Bool.false_eq_true, if_false]
          rw [get_of_FieldByName _ _ _ h2]
          rfl

/-! ## C5 -/

theorem attemptOf_map (o : untypedRequestBinder) (request : Request)
    (routeParams : RouteParams) (consumer : Consumer) (data : Data)
    (m : List (String × Value)) (hv : indirectValueOf data = Val.map (some m))
    (fp : String × Parameter) (a : Attempt)
    (h : attemptOf o request routeParams consumer data fp = some a) :
    ∃ binder0, mapGet o.paramBinders fp.1 = some binder0 ∧
      attempt request routeParams consumer true binder0 none true fp.1 fp.2 = some a := by
  obtain ⟨b, hb, ha⟩ := attemptOf_some_attempt o request routeParams consumer _ fp a h
  refine ⟨b, hb, ?_⟩
  rw [hv] at ha
  simpa [Val.Kind, Val.FieldByName, Val.canStore] using ha

/-- What the turn of an entry is on a map destination, read off the Field Binder: the target is
the zero value of the scratch type and the call is the one made on it. -/
theorem attempt_map_call (request : Request) (routeParams : RouteParams) (consumer : Consumer)
    (binder0 : untypedParamBinder) (field : Option (Option Value)) (canStore : Bool)
    (fieldName : String) (param : Parameter) (a : Attempt)
    (h : attempt request routeParams consumer true binder0 field canStore fieldName param =
      some a) :
    ∃ tpe, scratchType binder0 param = some tpe ∧ a.target = some (zeroValue tpe) ∧
      a.call = some (binder0.Bind binder0.Name request routeParams consumer (zeroValue tpe)) := by
  obtain ⟨hbinder, hcases, htgt⟩ := attempt_spec _ _ _ _ _ _ _ _ _ _ h
  simp only [if_true] at hbinder
  rcases hcases with ⟨h1, _⟩ | ⟨t, w, e, ht, hcall, hc, _⟩ | ⟨t, w, ht, hcall, hc, _⟩
  · cases h1
  · rcases htgt t ht with ⟨_, tpe, hty, hz⟩ | ⟨h1, _⟩
    · refine ⟨tpe, hty, by rw [ht, hz], ?_⟩
      rw [hc, ← hcall, hbinder, hz]
    · cases h1
  · rcases htgt t ht with ⟨_, tpe, hty, hz⟩ | ⟨h1, _⟩
    · refine ⟨tpe, hty, by rw [ht, hz], ?_⟩
      rw [hc, ← hcall, hbinder, hz]
    · cases h1

/-- The turn of an entry on a map destination when its Field Binder returns nil. -/
theorem attemptOf_map_bound (o : untypedRequestBinder) (request : Request)
    (routeParams : RouteParams) (consumer : Consumer) (data : Data)
    (m : List (String × Value)) (hv : indirectValueOf data = Val.map (some m))
    (fp : String × Parameter) (a : Attempt)
    (ha : attemptOf o request routeParams consumer data fp = some a)
    (binder : untypedParamBinder) (tpe : GoType) (written : Value)
    (hb : mapGet o.paramBinders fp.1 = some binder)
    (ht : scratchType binder fp.2 = some tpe)
    (hw : binder.Bind binder.Name request routeParams consumer (zeroValue tpe) =
      (written, none)) :
    a.errs = (validateTarget binder fp.1 written).1 ∧
    a.events = [Event.bind fp.1 (zeroValue tpe)] ++ (validateTarget binder fp.1 written).2 ++
      [Event.setMapIndex fp.1 fp.2.Name written] ∧
    a.store = some written := by
  obtain ⟨b, hb1, hat⟩ := attemptOf_map o request routeParams consumer data m hv fp a ha
  rw [hb] at hb1
  cases hb1
  obtain ⟨tpe1, ht1, htarget, hcall⟩ := attempt_map_call _ _ _ _ _ _ _ _ _ hat
  rw [ht] at ht1
  cases ht1
  rw [hw] at hcall
  obtain ⟨hbinder, hcases, _⟩ := attempt_spec _ _ _ _ _ _ _ _ _ _ hat
  simp only [if_true] at hbinder
  rcases hcases with ⟨h1, _⟩ | ⟨t, w, e, _, _, hc, _⟩ | ⟨t, w, htg, _, hc, he, hev, hst, _⟩
  · cases h1
  · rw [hcall] at hc; cases hc
  · rw [hcall] at hc
    cases hc
    rw [htarget] at htg
    cases htg
    rw [hbinder] at he hev
    exact ⟨he, by simpa using hev, hst⟩

/-- The turn of an entry on a map destination when its Field Binder returns an error. -/
theorem attemptOf_map_failed (o : untypedRequestBinder) (request : Request)
    (routeParams : RouteParams) (consumer : Consumer) (data : Data)
    (m : List (String × Value)) (hv : indirectValueOf data = Val.map (some m))
    (fp : String × Parameter) (a : Attempt)
    (ha : attemptOf o request routeParams consumer data fp = some a)
    (binder : untypedParamBinder) (tpe : GoType) (written : Value) (err : GoError)
    (hb : mapGet o.paramBinders fp.1 = some binder)
    (ht : scratchType binder fp.2 = some tpe)
    (hw : binder.Bind binder.Name request routeParams consumer (zeroValue tpe) =
      (written, some err)) :
    a.errs = [err] ∧ a.events = [Event.bind fp.1 (zeroValue tpe)] ∧ a.store = none := by
  obtain ⟨b, hb1, hat⟩ := attemptOf_map o request routeParams consumer data m hv fp a ha
  rw [hb] at hb1
  cases hb1
  obtain ⟨tpe1, ht1, htarget, hcall⟩ := attempt_map_call _ _ _ _ _ _ _ _ _ hat
  rw [ht] at ht1
  cases ht1
  rw [hw] at hcall
  obtain ⟨_, hcases, _⟩ := attempt_spec _ _ _ _ _ _ _ _ _ _ hat
  rcases hcases with ⟨h1, _⟩ | ⟨t, w, e, htg, _, hc, he, hev, hst⟩ | ⟨t, w, _, _, hc, _⟩
  · cases h1
  · rw [hcall] at hc
    cases hc
    rw [htarget] at htg
    cases htg
    exact ⟨he, hev, by simpa using hst⟩
  · rw [hcall] at hc; cases hc

/-- C5: on a map destination, a parameter whose Field Binder returns nil, having written
`written` into the scratch destination, is stored by `SetMapIndex` under its wire name
`param.Name` with the value `written`, and under no other key; when no other parameter has
that wire name the map holds `written` under it at the end, and when no parameter has the
field name as its wire name the entry of the map under the field name is as before the call. -/
theorem bound_parameter_is_stored_under_wire_name (o : untypedRequestBinder)
    (request : Request) (routeParams : RouteParams) (consumer : Consumer) (data : Data)
    (m : List (String × Value)) (r : BindReturn) (fp : String × Parameter)
    (binder : untypedParamBinder) (tpe : GoType) (written : Value)
    (hk : (mapKeys o.Parameters).Nodup)
    (hv : indirectValueOf data = Val.map (some m))
    (hr : o.Bind request routeParams consumer data = some r)
    (hfp : fp ∈ o.Parameters)
    (hb : mapGet o.paramBinders fp.1 = some binder)
    (ht : scratchType binder fp.2 = some tpe)
    (hw : binder.Bind binder.Name request routeParams consumer (zeroValue tpe) =
      (written, none)) :
    Event.setMapIndex fp.1 fp.2.Name written ∈ r.final.trace ∧
    (∀ key elem, Event.setMapIndex fp.1 key elem ∈ r.final.trace →
      key = fp.2.Name ∧ elem = written) ∧
    ((∀ g ∈ o.Parameters, g.2.Name = fp.2.Name → g = fp) →
      r.final.val.get fp.2.Name = some written) ∧
    ((∀ g ∈ o.Parameters, g.2.Name ≠ fp.1) → r.final.val.get fp.1 = mapGet m fp.1) := by
  obtain ⟨hall, _, htr, hval, _⟩ := Bind_some o request routeParams consumer data hk r hr
  obtain ⟨a, ha⟩ := hall fp hfp
  have hshape := (attemptOf_map_bound o request routeParams consumer data m hv fp a ha binder
    tpe written hb ht hw).2
  have hmap : decide ((indirectValueOf data).Kind = Kind.Map) = true := by
    rw [hv]; rfl
  refine ⟨?_, ?_, ?_, ?_⟩
  · rw [htr]
    refine List.mem_flatMap.mpr ⟨fp, hfp, ?_⟩
    rw [paramEvents_of_attemptOf o request routeParams consumer data fp a ha, hshape.1]
    simp
  · intro key elem hmem
    rw [htr, mem_trace_iff o request routeParams consumer data hk fp hfp
      (Event.setMapIndex fp.1 key elem) rfl,
      paramEvents_of_attemptOf o request routeParams consumer data fp a ha, hshape.1] at hmem
    simp only [List.mem_append, List.mem_singleton] at hmem
    rcases hmem with (h | h) | h
    · cases h
    · have := validateTarget_events _ _ _ _ h
      cases this
    · injection h with _ h2 h3
      exact ⟨h2, h3⟩
  · intro huniq
    have hfg := final_get o request routeParams consumer data hk r hr fp hfp
      (by
        intro g hg hgk
        rw [hmap] at hgk
        exact huniq g hg (by simpa [slotKey] using hgk)) a ha
    rw [hmap, hshape.2] at hfg
    simpa [slotKey] using hfg
  · intro hno
    rw [hval, hv]
    have hnot : fp.1 ∉ (o.Parameters.filterMap
        (paramWrite o request routeParams consumer data)).map Prod.fst := by
      intro hmem
      obtain ⟨kw, hkw, hkey⟩ := List.mem_map.mp hmem
      obtain ⟨g, hg, hgw⟩ := List.mem_filterMap.mp hkw
      have h1 := paramWrite_key o request routeParams consumer data g kw hgw
      rw [hmap] at h1
      simp only [slotKey, if_true] at h1
      exact hno g hg (h1.symm.trans hkey)
    exact get_foldl_put_of_not_mem _ fp.1 (Val.map (some m)) hnot

/-- C5, on the sample service: the parameter under the key `Name` is stored under its wire
name `name`. -/
theorem bound_parameter_is_stored_under_wire_name_witness :
    ((mapKeys sampleBinder.Parameters).Nodup ∧
      indirectValueOf sampleMap = Val.map (some []) ∧
      sampleName ∈ sampleBinder.Parameters ∧
      mapGet sampleBinder.paramBinders sampleName.1 =
        some (sampleParamBinder sampleName.2 ⟨1⟩ ⟨1⟩) ∧
      scratchType (sampleParamBinder sampleName.2 ⟨1⟩ ⟨1⟩) sampleName.2 = some GoType.string ∧
      (sampleParamBinder sampleName.2 ⟨1⟩ ⟨1⟩).Bind (sampleParamBinder sampleName.2 ⟨1⟩ ⟨1⟩).Name
        sampleRequest sampleRouteParams sampleConsumer (zeroValue GoType.string) =
        (⟨GoType.string, ["fido"]⟩, none)) ∧
    ∃ r, sampleBinder.Bind sampleRequest sampleRouteParams sampleConsumer sampleMap = some r ∧
      Event.setMapIndex "Name" "name" ⟨GoType.string, ["fido"]⟩ ∈ r.final.trace ∧
      (∀ key elem, Event.setMapIndex "Name" key elem ∈ r.final.trace →
        key = "name" ∧ elem = ⟨GoType.string, ["fido"]⟩) ∧
      r.final.val.get "name" = some ⟨GoType.string, ["fido"]⟩ ∧
      r.final.val.get "Name" = none := by
  refine ⟨⟨by decide, rfl, by decide, rfl, rfl, rfl⟩, ?_⟩
  obtain ⟨r, hr⟩ := Bind_returns sampleBinder sampleRequest sampleRouteParams sampleConsumer
    sampleMap (by decide) (canBind_attemptOf _ _ _ _ _ (by decide))
  have h := bound_parameter_is_stored_under_wire_name sampleBinder sampleRequest
    sampleRouteParams sampleConsumer sampleMap [] r sampleName
    (sampleParamBinder sampleName.2 ⟨1⟩ ⟨1⟩) GoType.string ⟨GoType.string, ["fido"]⟩
    (by decide) rfl hr (by decide) rfl rfl rfl
  exact ⟨r, hr, h.1, h.2.1, h.2.2.1 (by decide), h.2.2.2 (by decide)⟩

/-! ## C6 -/

/-- C6 fails: on the sample service the parameter under the key `Limit` contributes a
validation error to the result, and its value is written into the map under its wire name
`limit` all the same. -/
theorem validation_error_is_written_into_the_map :
    ∃ r, sampleBinder.Bind sampleRequest sampleRouteParams sampleConsumer sampleMap = some r ∧
      paramErrors sampleBinder sampleRequest sampleRouteParams sampleConsumer sampleMap
        sampleLimit =
        [GoError.New 422 "%s in %s should be greater than or equal to %v"
          ["limit", "query", "1"]] ∧
      r.err = some (CompositeValidationError
        [GoError.New 422 "%s in %s should be greater than or equal to %v"
          ["limit", "query", "1"],
         GoError.New 422 "%s in %s is required" ["age", "query"]]) ∧
      (indirectValueOf sampleMap).get "limit" = none ∧
      r.final.val.get "limit" = some ⟨GoType.int64, ["-5"]⟩ ∧
      Event.setMapIndex "Limit" "limit" ⟨GoType.int64, ["-5"]⟩ ∈ r.final.trace :=
  ⟨(sampleBinder.Bind sampleRequest sampleRouteParams sampleConsumer sampleMap).get rfl,
    by simp, by decide, by decide, by decide, by decide, by decide⟩

/-- C6, as the code has it: on a map destination, a parameter whose Field Binder returned an
error contributes that error and is not written (no `SetMapIndex` is made for it and, no other
parameter having its wire name, the entry of the map under that name is as before the call); a
parameter whose Field Binder returned nil and whose validator reported errors contributes the
validation error and is written under its wire name all the same. -/
theorem map_entry_is_written_unless_the_binder_fails (o : untypedRequestBinder)
    (request : Request) (routeParams : RouteParams) (consumer : Consumer) (data : Data)
    (m : List (String × Value)) (r : BindReturn) (fp : String × Parameter)
    (binder : untypedParamBinder) (tpe : GoType)
    (hk : (mapKeys o.Parameters).Nodup)
    (hv : indirectValueOf data = Val.map (some m))
    (hr : o.Bind request routeParams consumer data = some r)
    (hfp : fp ∈ o.Parameters)
    (hb : mapGet o.paramBinders fp.1 = some binder)
    (ht : scratchType binder fp.2 = some tpe) :
    (∀ written err,
      binder.Bind binder.Name request routeParams consumer (zeroValue tpe) =
        (written, some err) →
      paramErrors o request routeParams consumer data fp = [err] ∧
      (∀ key elem, Event.setMapIndex fp.1 key elem ∉ r.final.trace) ∧
      ((∀ g ∈ o.Parameters, g.2.Name = fp.2.Name → g = fp) →
        r.final.val.get fp.2.Name = mapGet m fp.2.Name)) ∧
    (∀ written validate rr,
      binder.Bind binder.Name request routeParams consumer (zeroValue tpe) = (written, none) →
      binder.validator = some validate → validate written = some rr → rr.HasErrors = true →
      paramErrors o request routeParams consumer data fp = [rr.AsError] ∧
      Event.setMapIndex fp.1 fp.2.Name written ∈ r.final.trace ∧
      ((∀ g ∈ o.Parameters, g.2.Name = fp.2.Name → g = fp) →
        r.final.val.get fp.2.Name = some written)) := by
  obtain ⟨hall, _, htr, _, _⟩ := Bind_some o request routeParams consumer data hk r hr
  obtain ⟨a, ha⟩ := hall fp hfp
  have hmap : decide ((indirectValueOf data).Kind = Kind.Map) = true := by
    rw [hv]; rfl
  have hslot : ∀ g : String × Parameter,
      slotKey (decide ((indirectValueOf data).Kind = Kind.Map)) g.1 g.2 = g.2.Name := by
    intro g; rw [hmap]; rfl
  have hget := final_get o request routeParams consumer data hk r hr fp hfp
  simp only [hslot] at hget
  constructor
  · intro written err hw
    obtain ⟨he, hev, hst⟩ := attemptOf_map_failed o request routeParams consumer data m hv fp a
      ha binder tpe written err hb ht hw
    refine ⟨?_, ?_, ?_⟩
    · rw [paramErrors_of_attemptOf o request routeParams consumer data fp a ha, he]
    · intro key elem hmem
      rw [htr, mem_trace_iff o request routeParams consumer data hk fp hfp
        (Event.setMapIndex fp.1 key elem) rfl,
        paramEvents_of_attemptOf o request routeParams consumer data fp a ha, hev] at hmem
      simp at hmem
    · intro huniq
      have := hget huniq a ha
      rw [hst, hv] at this
      exact this
  · intro written validate rr hw hval hvr hhas
    obtain ⟨he, hev, hst⟩ := attemptOf_map_bound o request routeParams consumer data m hv fp a
      ha binder tpe written hb ht hw
    refine ⟨?_, ?_, ?_⟩
    · rw [paramErrors_of_attemptOf o request routeParams consumer data fp a ha, he]
      simp [validateTarget, hval, hvr, hhas]
    · rw [htr]
      refine List.mem_flatMap.mpr ⟨fp, hfp, ?_⟩
      rw [paramEvents_of_attemptOf o request routeParams consumer data fp a ha, hev]
      simp
    · intro huniq
      have := hget huniq a ha
      rw [hst] at this
      exact this

/-- C6 as amended, on the sample service: `Age` is missing and is not written, `Limit` fails
validation and is written. -/
theorem map_entry_is_written_unless_the_binder_fails_witness :
    ((mapKeys sampleBinder.Parameters).Nodup ∧
      indirectValueOf sampleMap = Val.map (some []) ∧
      sampleAge ∈ sampleBinder.Parameters ∧
      mapGet sampleBinder.paramBinders sampleAge.1 =
        some (sampleParamBinder sampleAge.2 ⟨1⟩ ⟨1⟩) ∧
      scratchType (sampleParamBinder sampleAge.2 ⟨1⟩ ⟨1⟩) sampleAge.2 = some GoType.int64 ∧
      (sampleParamBinder sampleAge.2 ⟨1⟩ ⟨1⟩).Bind (sampleParamBinder sampleAge.2 ⟨1⟩ ⟨1⟩).Name
        sampleRequest sampleRouteParams sampleConsumer (zeroValue GoType.int64) =
        (zeroValue GoType.int64,
          some (GoError.New 422 "%s in %s is required" ["age", "query"]))) ∧
    ∃ r, sampleBinder.Bind sampleRequest sampleRouteParams sampleConsumer sampleMap = some r ∧
      paramErrors sampleBinder sampleRequest sampleRouteParams sampleConsumer sampleMap
        sampleAge = [GoError.New 422 "%s in %s is required" ["age", "query"]] ∧
      (∀ key elem, Event.setMapIndex "Age" key elem ∉ r.final.trace) ∧
      r.final.val.get "age" = none ∧
      paramErrors sampleBinder sampleRequest sampleRouteParams sampleConsumer sampleMap
        sampleLimit =
        [GoError.New 422 "%s in %s should be greater than or equal to %v"
          ["limit", "query", "1"]] ∧
      Event.setMapIndex "Limit" "limit" ⟨GoType.int64, ["-5"]⟩ ∈ r.final.trace ∧
      r.final.val.get "limit" = some ⟨GoType.int64, ["-5"]⟩ := by
  refine ⟨⟨by decide, rfl, by decide, rfl, rfl, rfl⟩, ?_⟩
  obtain ⟨r, hr⟩ := Bind_returns sampleBinder sampleRequest sampleRouteParams sampleConsumer
    sampleMap (by decide) (canBind_attemptOf _ _ _ _ _ (by decide))
  have hAge := (map_entry_is_written_unless_the_binder_fails sampleBinder sampleRequest
    sampleRouteParams sampleConsumer sampleMap [] r sampleAge
    (sampleParamBinder sampleAge.2 ⟨1⟩ ⟨1⟩) GoType.int64 (by decide) rfl hr (by decide) rfl
    rfl).1 (zeroValue GoType.int64) (GoError.New 422 "%s in %s is required" ["age", "query"])
    rfl
  have hLimit := (map_entry_is_written_unless_the_binder_fails sampleBinder sampleRequest
    sampleRouteParams sampleConsumer sampleMap [] r sampleLimit
    (sampleParamBinder sampleLimit.2 ⟨1⟩ ⟨1⟩) GoType.int64 (by decide) rfl hr (by decide) rfl
    rfl).2 ⟨GoType.int64, ["-5"]⟩ _
    { HasErrors := true
      AsError := GoError.New 422 "%s in %s should be greater than or equal to %v"
        ["limit", "query", "1"] } rfl rfl rfl rfl
  exact ⟨r, hr, hAge.1, hAge.2.1, hAge.2.2 (by decide), hLimit.1, hLimit.2.1,
    hLimit.2.2 (by decide)⟩

/-! ## C9 -/

/-- A turn that resolves a target calls the Field Binder on it, once; a turn that does not
resolve one does not call it. -/
theorem attempt_bind_events (request : Request) (routeParams : RouteParams)
    (consumer : Consumer) (isMap : Bool) (binder0 : untypedParamBinder)
    (field : Option (Option Value)) (canStore : Bool) (fieldName : String) (param : Parameter)
    (a : Attempt)
    (h : attempt request routeParams consumer isMap binder0 field canStore fieldName param =
      some a) :
    a.events.filter (Event.isBindOf fieldName) =
      match a.target with
      | none => []
      | some target => [Event.bind fieldName target] := by
  obtain ⟨_, hcases, _⟩ := attempt_spec _ _ _ _ _ _ _ _ _ _ h
  have hval : ∀ (b : untypedParamBinder) (w : Value),
      (validateTarget b fieldName w).2.filter (Event.isBindOf fieldName) = [] := by
    intro b w
    apply List.filter_eq_nil_iff.mpr
    intro e he
    rw [validateTarget_events b fieldName w e he]
    simp [Event.isBindOf]
  rcases hcases with ⟨_, _, h1, _, _, hev, _⟩ | ⟨t, w, e, ht1, _, _, _, hev, _⟩ |
    ⟨t, w, ht1, _, _, _, hev, _, _⟩
  · rw [h1, hev]; rfl
  · rw [ht1, hev]
    simp [List.filter, Event.isBindOf]
  · rw [ht1, hev]
    cases isMap <;> simp [List.filter_append, hval, List.filter, Event.isBindOf]

theorem isBindOf_fieldName (fieldName : String) (e : Event)
    (h : Event.isBindOf fieldName e = true) : e.fieldName = fieldName := by
  cases e with
  | bind f t => simpa [Event.isBindOf, Event.fieldName] using h
  | validate f v => simp [Event.isBindOf] at h
  | setMapIndex f k v => simp [Event.isBindOf] at h

/-- The events of the trace that are recorded under the key of an entry are those of the turn
of that entry. -/
theorem filter_flatMap_events (ev : String × Parameter → List Event)
    (hev : ∀ g, ∀ e ∈ ev g, e.fieldName = g.1) (p : Event → Bool) (fp : String × Parameter)
    (hp : ∀ e, p e = true → e.fieldName = fp.1) (ps : List (String × Parameter)) :
    (mapKeys ps).Nodup → fp ∈ ps → (ps.flatMap ev).filter p = (ev fp).filter p := by
  have hnone : ∀ l : List (String × Parameter), fp.1 ∉ mapKeys l →
      (l.flatMap ev).filter p = [] := by
    intro l hl
    apply List.filter_eq_nil_iff.mpr
    intro e he hpe
    obtain ⟨g, hg, heg⟩ := List.mem_flatMap.mp he
    have h1 := hev g e heg
    have h2 := hp e hpe
    exact hl (List.mem_map.mpr ⟨g, hg, h1.symm.trans h2⟩)
  induction ps with
  | nil => intro _ h; simp at h
  | cons g rest ih =>
    intro hk hmem
    simp only [mapKeys, List.map_cons, List.nodup_cons] at hk
    rw [List.flatMap_cons, List.filter_append]
    rcases List.mem_cons.mp hmem with h | h
    · subst h
      rw [hnone rest hk.1, List.append_nil]
    · have hne : g.1 ≠ fp.1 := by
        intro hg
        exact hk.1 (hg ▸ List.mem_map.mpr ⟨fp, h, rfl⟩)
      have hg : (ev g).filter p = [] := by
        apply List.filter_eq_nil_iff.mpr
        intro e he hpe
        exact hne ((hev g e he).symm.trans (hp e hpe))
      rw [hg, List.nil_append]
      exact ih hk.2 h

/-- In a call of `Bind` that returns, the Field Binder of an entry is called once, on the
target of the entry, when a target is resolved, and is not called otherwise. -/
theorem trace_bind_events (o : untypedRequestBinder) (request : Request)
    (routeParams : RouteParams) (consumer : Consumer) (data : Data)
    (hk : (mapKeys o.Parameters).Nodup) (r : BindReturn)
    (hr : o.Bind request routeParams consumer data = some r) (fp : String × Parameter)
    (hfp : fp ∈ o.Parameters) (a : Attempt)
    (ha : attemptOf o request routeParams consumer data fp = some a) :
    r.final.trace.filter (Event.isBindOf fp.1) =
      match a.target with
      | none => []
      | some target => [Event.bind fp.1 target] := by
  obtain ⟨_, _, htr, _, _⟩ := Bind_some o request routeParams consumer data hk r hr
  rw [htr, filter_flatMap_events _ (paramEvents_fieldName o request routeParams consumer data)
    _ fp (isBindOf_fieldName fp.1) o.Parameters hk hfp,
    paramEvents_of_attemptOf o request routeParams consumer data fp a ha]
  obtain ⟨b, _, hb⟩ := attemptOf_some_attempt o request routeParams consumer data fp a ha
  exact attempt_bind_events _ _ _ _ _ _ _ _ _ _ hb

/-- C9: on a map destination, in a call of `Bind` that returns, the Field Binder of a
parameter is called once, on a scratch destination that is the zero value of the type
declared by the Field Binder when there is one; when there is none (`binder.Type()` is nil)
the parameter has a schema, and the scratch destination is the zero value of
`[]interface{}` when the type list of the schema contains `array` and of
`map[string]interface{}` otherwise. -/
theorem scratch_destination_type (o : untypedRequestBinder) (request : Request)
    (routeParams : RouteParams) (consumer : Consumer) (data : Data) (r : BindReturn)
    (fp : String × Parameter) (binder : untypedParamBinder)
    (hk : (mapKeys o.Parameters).Nodup)
    (hv : (indirectValueOf data).Kind = Kind.Map)
    (hr : o.Bind request routeParams consumer data = some r)
    (hfp : fp ∈ o.Parameters)
    (hb : mapGet o.paramBinders fp.1 = some binder) :
    ∃ target, r.final.trace.filter (Event.isBindOf fp.1) = [Event.bind fp.1 target] ∧
      (∀ tpe, binder.Type_ = some tpe → target = zeroValue tpe) ∧
      (binder.Type_ = none →
        ∃ schema, fp.2.Schema = some schema ∧
          ("array" ∈ schema.Type_ → target = zeroValue sliceOfInterface) ∧
          ("array" ∉ schema.Type_ → target = zeroValue mapOfInterface)) := by
  obtain ⟨hall, _⟩ := Bind_some o request routeParams consumer data hk r hr
  obtain ⟨a, ha⟩ := hall fp hfp
  obtain ⟨b, hb1, hat⟩ := attemptOf_some_attempt o request routeParams consumer data fp a ha
  rw [hb] at hb1
  cases hb1
  have hmap : decide ((indirectValueOf data).Kind = Kind.Map) = true := by simp [hv]
  rw [hmap] at hat
  obtain ⟨tpe, hty, htarget, _⟩ := attempt_map_call _ _ _ _ _ _ _ _ _ hat
  have htrace := trace_bind_events o request routeParams consumer data hk r hr fp hfp a ha
  rw [htarget] at htrace
  refine ⟨zeroValue tpe, htrace, ?_, ?_⟩
  · intro tpe1 h1
    simp only [scratchType, h1, Option.some.injEq] at hty
    rw [hty]
  · intro h1
    cases hs : fp.2.Schema with
    | none => simp [scratchType, h1, hs] at hty
    | some schema =>
      refine ⟨schema, rfl, ?_, ?_⟩
      · intro harr
        have : schema.Type_.contains "array" = true := by simpa using harr
        simp only [scratchType, h1, hs, this, if_true, Option.some.injEq] at hty
        rw [← hty]
      · intro harr
        have : schema.Type_.contains "array" = false := by simpa using harr
        simp only [scratchType, h1, hs, this, Option.some.injEq] at hty
        simp at hty
        rw [← hty]

/-- C9, on the sample service: the Field Binder under `Tags` declares no type and the schema
of the parameter is an array. -/
theorem scratch_destination_type_witness :
    ((mapKeys sampleBinder.Parameters).Nodup ∧
      (indirectValueOf sampleMap).Kind = Kind.Map ∧
      sampleTags ∈ sampleBinder.Parameters ∧
      mapGet sampleBinder.paramBinders sampleTags.1 =
        some (sampleParamBinder sampleTags.2 ⟨1⟩ ⟨1⟩)) ∧
    ∃ r, sampleBinder.Bind sampleRequest sampleRouteParams sampleConsumer sampleMap = some r ∧
      ∃ target, r.final.trace.filter (Event.isBindOf sampleTags.1) =
          [Event.bind sampleTags.1 target] ∧
        (∀ tpe, (sampleParamBinder sampleTags.2 ⟨1⟩ ⟨1⟩).Type_ = some tpe →
          target = zeroValue tpe) ∧
        ((sampleParamBinder sampleTags.2 ⟨1⟩ ⟨1⟩).Type_ = none →
          ∃ schema, sampleTags.2.Schema = some schema ∧
            ("array" ∈ schema.Type_ → target = zeroValue sliceOfInterface) ∧
            ("array" ∉ schema.Type_ → target = zeroValue mapOfInterface)) := by
  refine ⟨⟨by decide, rfl, by decide, rfl⟩, ?_⟩
  obtain ⟨r, hr⟩ := Bind_returns sampleBinder sampleRequest sampleRouteParams sampleConsumer
    sampleMap (by decide) (canBind_attemptOf _ _ _ _ _ (by decide))
  exact ⟨r, hr, scratch_destination_type sampleBinder sampleRequest sampleRouteParams
    sampleConsumer sampleMap r sampleTags (sampleParamBinder sampleTags.2 ⟨1⟩ ⟨1⟩) (by decide)
    rfl hr (by decide) rfl⟩

/-! ## C2 -/

/-- The turn of an entry on a struct destination that has a field of its name. -/
theorem attemptOf_struct_field (o : untypedRequestBinder) (request : Request)
    (routeParams : RouteParams) (consumer : Consumer) (data : Data)
    (fs : List (String × Value)) (hv : indirectValueOf data = Val.struct fs)
    (fp : String × Parameter) (a : Attempt)
    (ha : attemptOf o request routeParams consumer data fp = some a)
    (binder : untypedParamBinder) (target : Value)
    (hb : mapGet o.paramBinders fp.1 = some binder)
    (hf : mapGet fs fp.1 = some target) :
    a.target = some target ∧
    (∀ written, binder.Bind fp.1 request routeParams consumer target = (written, none) →
      a.store = some written) := by
  obtain ⟨b, hb1, hat⟩ := attemptOf_some_attempt o request routeParams consumer data fp a ha
  rw [hb] at hb1
  cases hb1
  rw [hv] at hat
  simp only [Val.Kind, Val.FieldByName, hf] at hat
  have hdec : decide (Kind.Struct = Kind.Map) = false := by decide
  rw [hdec] at hat
  obtain ⟨hbinder, hcases, htgt⟩ := attempt_spec _ _ _ _ _ _ _ _ _ _ hat
  simp only [Bool.false_eq_true, if_false] at hbinder
  have htarget : ∀ t, a.target = some t → t = target := by
    intro t ht
    rcases htgt t ht with ⟨h1, _⟩ | ⟨_, h2⟩
    · cases h1
    · exact (Option.some.inj (Option.some.inj h2)).symm
  rcases hcases with ⟨_, h1, _⟩ | ⟨t, w, e, ht, hcall, _⟩ | ⟨t, w, ht, hcall, _, _, _, hst, _⟩
  · cases h1
  · have := htarget t ht
    subst this
    refine ⟨ht, ?_⟩
    intro written hw
    rw [hbinder] at hcall
    simp only [] at hcall
    rw [hw] at hcall
    cases hcall
  · have := htarget t ht
    subst this
    refine ⟨ht, ?_⟩
    intro written hw
    rw [hbinder] at hcall
    simp only [] at hcall
    rw [hw] at hcall
    cases hcall
    exact hst

/-- C2, as the code has it: on a destination that `canBind` accepts, `Bind` returns whatever
parameters fail, and for every parameter: on a struct that has a field of its name, the Field
Binder is called exactly once, on that field, and when it returns nil the field holds the value
it wrote; on a map, the Field Binder is called exactly once, on the scratch destination, and
when it returns nil the map holds the value it wrote under the wire name of the parameter,
provided that no other parameter has that wire name. Nothing is assumed of the success or
failure of the other parameters. -/
theorem failures_do_not_stop_the_pass (o : untypedRequestBinder) (request : Request)
    (routeParams : RouteParams) (consumer : Consumer) (data : Data)
    (hk : (mapKeys o.Parameters).Nodup) (hc : o.canBind data = true) :
    ∃ r, o.Bind request routeParams consumer data = some r ∧
      ∀ fp ∈ o.Parameters, ∀ binder, mapGet o.paramBinders fp.1 = some binder →
        (∀ fs target, indirectValueOf data = Val.struct fs → mapGet fs fp.1 = some target →
          r.final.trace.filter (Event.isBindOf fp.1) = [Event.bind fp.1 target] ∧
          ∀ written,
            binder.Bind fp.1 request routeParams consumer target = (written, none) →
            r.final.val.get fp.1 = some written) ∧
        (∀ m tpe, indirectValueOf data = Val.map (some m) →
          scratchType binder fp.2 = some tpe →
          r.final.trace.filter (Event.isBindOf fp.1) = [Event.bind fp.1 (zeroValue tpe)] ∧
          ∀ written,
            binder.Bind binder.Name request routeParams consumer (zeroValue tpe) =
              (written, none) →
            (∀ g ∈ o.Parameters, g.2.Name = fp.2.Name → g = fp) →
            r.final.val.get fp.2.Name = some written) := by
  obtain ⟨r, hr⟩ := Bind_returns o request routeParams consumer data hk
    (canBind_attemptOf o request routeParams consumer data hc)
  refine ⟨r, hr, ?_⟩
  obtain ⟨hall, _⟩ := Bind_some o request routeParams consumer data hk r hr
  intro fp hfp binder hb
  obtain ⟨a, ha⟩ := hall fp hfp
  have htrace := trace_bind_events o request routeParams consumer data hk r hr fp hfp a ha
  have hget := final_get o request routeParams consumer data hk r hr fp hfp
  constructor
  · intro fs target hv hf
    obtain ⟨htarget, hstore⟩ := attemptOf_struct_field o request routeParams consumer data fs
      hv fp a ha binder target hb hf
    rw [htarget] at htrace
    refine ⟨htrace, ?_⟩
    intro written hw
    have hmap : decide ((indirectValueOf data).Kind = Kind.Map) = false := by
      rw [hv]; rfl
    rw [hmap] at hget
    have := hget (fun g hg hgk =>
      entry_eq_of_key_eq o.Parameters hk g fp hg hfp (by simpa [slotKey] using hgk)) a ha
    rw [hstore written hw] at this
    simpa [slotKey] using this
  · intro m tpe hv hty
    have hmap : decide ((indirectValueOf data).Kind = Kind.Map) = true := by
      rw [hv]; rfl
    obtain ⟨b, hb1, hat⟩ := attemptOf_map o request routeParams consumer data m hv fp a ha
    rw [hb] at hb1
    cases hb1
    obtain ⟨tpe1, hty1, htarget, _⟩ := attempt_map_call _ _ _ _ _ _ _ _ _ hat
    rw [hty] at hty1
    cases hty1
    rw [htarget] at htrace
    refine ⟨htrace, ?_⟩
    intro written hw huniq
    obtain ⟨_, _, hst⟩ := attemptOf_map_bound o request routeParams consumer data m hv fp a ha
      binder tpe written hb hty hw
    rw [hmap] at hget
    have := hget (fun g hg hgk => huniq g hg (by simpa [slotKey] using hgk)) a ha
    rw [hst] at this
    simpa [slotKey] using this

/-- C2 as amended, on the sample service, with its struct and with its map: `Limit` fails
validation, `Age` is missing and the struct has no field `Tags`, and still the Field Binder of
`Name` is called once, the field `Name` of the struct holds the value read in the request, and
so does the entry `name` of the map. -/
theorem failures_do_not_stop_the_pass_witness :
    ((mapKeys sampleBinder.Parameters).Nodup ∧ sampleBinder.canBind sampleStruct = true ∧
      sampleBinder.canBind sampleMap = true ∧
      ∀ g ∈ sampleBinder.Parameters, g.2.Name = sampleName.2.Name → g = sampleName) ∧
    (∃ r, sampleBinder.Bind sampleRequest sampleRouteParams sampleConsumer sampleStruct =
        some r ∧
      r.err ≠ none ∧
      r.final.trace.filter (Event.isBindOf "Name") =
        [Event.bind "Name" (zeroValue GoType.string)] ∧
      r.final.val.get "Name" = some ⟨GoType.string, ["fido"]⟩) ∧
    (∃ r, sampleBinder.Bind sampleRequest sampleRouteParams sampleConsumer sampleMap =
        some r ∧
      r.err ≠ none ∧
      r.final.trace.filter (Event.isBindOf "Name") =
        [Event.bind "Name" (zeroValue GoType.string)] ∧
      r.final.val.get "name" = some ⟨GoType.string, ["fido"]⟩) := by
  refine ⟨⟨by decide, by decide, by decide, by decide⟩, ?_, ?_⟩
  · obtain ⟨r, hr, h⟩ := failures_do_not_stop_the_pass sampleBinder sampleRequest
      sampleRouteParams sampleConsumer sampleStruct (by decide) (by decide)
    have h1 := (h sampleName (by decide) (sampleParamBinder sampleName.2 ⟨1⟩ ⟨1⟩) rfl).1
      sampleFields (zeroValue GoType.string) rfl rfl
    have herr : r.err ≠ none := by
      have hget : (sampleBinder.Bind sampleRequest sampleRouteParams sampleConsumer
          sampleStruct).map (fun r => r.err.isSome) = some true := by decide
      rw [hr] at hget
      intro hnone
      simp [hnone] at hget
    exact ⟨r, hr, herr, h1.1, h1.2 ⟨GoType.string, ["fido"]⟩ rfl⟩
  · obtain ⟨r, hr, h⟩ := failures_do_not_stop_the_pass sampleBinder sampleRequest
      sampleRouteParams sampleConsumer sampleMap (by decide) (by decide)
    have h1 := (h sampleName (by decide) (sampleParamBinder sampleName.2 ⟨1⟩ ⟨1⟩) rfl).2
      [] GoType.string rfl rfl
    have herr : r.err ≠ none := by
      have hget : (sampleBinder.Bind sampleRequest sampleRouteParams sampleConsumer
          sampleMap).map (fun r => r.err.isSome) = some true := by decide
      rw [hr] at hget
      intro hnone
      simp [hnone] at hget
    exact ⟨r, hr, herr, h1.1, h1.2 ⟨GoType.string, ["fido"]⟩ rfl (by decide)⟩

/-- C2 fails on a map when two parameters share a wire name: both parameters of
`clashingBinder` bind the request `limit=10` and `Bind` returns nil, the Field Binder of
`Limit` having written the integer `10` into its scratch destination; yet the map ends with
the single entry `limit`, holding the string written for `LimitText`, and the value of `Limit`
is not in the destination. -/
theorem bound_value_is_overwritten_by_same_wire_name :
    (mapKeys clashingBinder.Parameters).Nodup ∧
    clashingBinder.canBind sampleMap = true ∧
    sampleLimit ∈ clashingBinder.Parameters ∧
    mapGet clashingBinder.paramBinders sampleLimit.1 =
      some (sampleParamBinder sampleLimit.2 ⟨1⟩ ⟨1⟩) ∧
    (sampleParamBinder sampleLimit.2 ⟨1⟩ ⟨1⟩).Bind (sampleParamBinder sampleLimit.2 ⟨1⟩ ⟨1⟩).Name
      plainRequest sampleRouteParams sampleConsumer (zeroValue GoType.int64) =
      (⟨GoType.int64, ["10"]⟩, none) ∧
    ∃ r, clashingBinder.Bind plainRequest sampleRouteParams sampleConsumer sampleMap = some r ∧
      r.err = none ∧
      r.final.val = Val.map (some [("limit", ⟨GoType.string, ["10"]⟩)]) ∧
      r.final.val.get sampleLimit.2.Name ≠ some ⟨GoType.int64, ["10"]⟩ ∧
      ∀ k, r.final.val.get k ≠ some ⟨GoType.int64, ["10"]⟩ := by
  refine ⟨by decide, by decide, by decide, rfl, rfl,
    (clashingBinder.Bind plainRequest sampleRouteParams sampleConsumer sampleMap).get rfl,
    by simp, by decide, by decide, by decide, ?_⟩
  intro k
  have hval : ((clashingBinder.Bind plainRequest sampleRouteParams sampleConsumer
      sampleMap).get rfl).final.val = Val.map (some [("limit", ⟨GoType.string, ["10"]⟩)]) := by
    decide
  rw [hval]
  by_cases hk : "limit" = k
  · subst hk; decide
  · simp [Val.get, mapGet, hk]

/-! ## C8 -/

theorem foldl_mapSet_keys {V : Type} (f : Parameter → V) (ps : List (String × Parameter)) :
    ∀ acc : List (String × V), (mapKeys acc ++ mapKeys ps).Nodup →
      mapKeys (ps.foldl (fun binders fp => mapSet binders fp.1 (f fp.2)) acc) =
        mapKeys acc ++ mapKeys ps := by
  induction ps with
  | nil => intro acc _; simp [mapKeys]
  | cons fp rest ih =>
    intro acc hn
    have hnot : fp.1 ∉ mapKeys acc := by
      intro hmem
      have := (List.nodup_append.mp hn).2.2
      exact this hmem (by simp [mapKeys])
    simp only [List.foldl_cons]
    have hkeys := mapKeys_mapSet_of_not_mem acc fp.1 (f fp.2) hnot
    have hn1 : (mapKeys (mapSet acc fp.1 (f fp.2)) ++ mapKeys rest).Nodup := by
      rw [hkeys]
      simpa [mapKeys, List.append_assoc] using hn
    rw [ih _ hn1, hkeys]
    simp [mapKeys]

theorem foldl_mapSet_get_of_not_mem {V : Type} (f : Parameter → V)
    (ps : List (String × Parameter)) (k : String) :
    ∀ acc : List (String × V), k ∉ mapKeys ps →
      mapGet (ps.foldl (fun binders fp => mapSet binders fp.1 (f fp.2)) acc) k =
        mapGet acc k := by
  induction ps with
  | nil => intro acc _; rfl
  | cons fp rest ih =>
    intro acc hk
    simp only [mapKeys, List.map_cons, List.mem_cons, not_or] at hk
    simp only [List.foldl_cons]
    rw [ih _ hk.2]
    exact mapGet_mapSet_of_ne _ _ _ _ (fun h => hk.1 h.symm)

theorem foldl_mapSet_get {V : Type} (f : Parameter → V) (ps : List (String × Parameter)) :
    ∀ acc : List (String × V), (mapKeys ps).Nodup → ∀ fp ∈ ps,
      mapGet (ps.foldl (fun binders fp => mapSet binders fp.1 (f fp.2)) acc) fp.1 =
        some (f fp.2) := by
  induction ps with
  | nil => intro acc _ fp h; simp at h
  | cons g rest ih =>
    intro acc hn fp hfp
    simp only [mapKeys, List.map_cons, List.nodup_cons] at hn
    simp only [List.foldl_cons]
    rcases List.mem_cons.mp hfp with h | h
    · subst h
      rw [foldl_mapSet_get_of_not_mem f rest fp.1 _ hn.1]
      exact mapGet_mapSet_self _ _ _
    · exact ih _ hn.2 fp h

theorem sameButName_refl (b : untypedParamBinder) : b.sameButName b := ⟨rfl, rfl, rfl⟩

/-- A turn of the loop keeps the keys of `paramBinders`, and every Field Binder up to its
`Name`. -/
theorem bindParam_paramBinders (request : Request) (routeParams : RouteParams)
    (consumer : Consumer) (isMap : Bool) (st st1 : LoopState) (fieldName : String)
    (param : Parameter)
    (h : bindParam request routeParams consumer isMap st fieldName param = some st1) :
    mapKeys st1.paramBinders = mapKeys st.paramBinders ∧
    ∀ g b1, mapGet st1.paramBinders g = some b1 →
      ∃ b, mapGet st.paramBinders g = some b ∧ b1.sameButName b := by
  rw [bindParam_eq] at h
  cases hb : mapGet st.paramBinders fieldName with
  | none => simp [hb] at h
  | some b0 =>
    simp only [hb] at h
    cases ha : attempt request routeParams consumer isMap b0 (st.val.FieldByName fieldName)
        st.val.canStore fieldName param with
    | none => simp [ha] at h
    | some a =>
      simp only [ha, Option.map_some', Option.some.injEq] at h
      subst h
      obtain ⟨hbinder, _⟩ := attempt_spec _ _ _ _ _ _ _ _ _ _ ha
      cases isMap with
      | true =>
        refine ⟨by simp [applyAttempt], ?_⟩
        intro g b1 hg
        simp only [applyAttempt, if_true] at hg
        exact ⟨b1, hg, sameButName_refl b1⟩
      | false =>
        simp only [applyAttempt, Bool.false_eq_true, if_false]
        have hmem : fieldName ∈ mapKeys st.paramBinders :=
          (mapGet_isSome_iff _ _).mp (by rw [hb]; rfl)
        refine ⟨mapKeys_mapSet_of_mem _ _ _ hmem, ?_⟩
        intro g b1 hg
        by_cases hfg : fieldName = g
        · subst hfg
          rw [mapGet_mapSet_self] at hg
          cases hg
          refine ⟨b0, hb, ?_⟩
          rw [hbinder]
          simp [untypedParamBinder.sameButName]
        · rw [mapGet_mapSet_of_ne _ _ _ _ hfg] at hg
          exact ⟨b1, hg, sameButName_refl b1⟩

/-- The loop keeps the keys of `paramBinders`, and every Field Binder up to its `Name`. -/
theorem rangeParameters_paramBinders (request : Request) (routeParams : RouteParams)
    (consumer : Consumer) (isMap : Bool) (ps : List (String × Parameter)) :
    ∀ st st1 : LoopState,
      rangeParameters request routeParams consumer isMap ps st = some st1 →
      mapKeys st1.paramBinders = mapKeys st.paramBinders ∧
      ∀ g b1, mapGet st1.paramBinders g = some b1 →
        ∃ b, mapGet st.paramBinders g = some b ∧ b1.sameButName b := by
  induction ps with
  | nil =>
    intro st st1 h
    simp only [rangeParameters, Option.some.injEq] at h
    subst h
    exact ⟨rfl, fun g b1 hg => ⟨b1, hg, sameButName_refl b1⟩⟩
  | cons fp rest ih =>
    intro st st1 h
    obtain ⟨f, p⟩ := fp
    simp only [rangeParameters] at h
    cases hstep : bindParam request routeParams consumer isMap st f p with
    | none => simp [hstep] at h
    | some st2 =>
      simp only [hstep] at h
      obtain ⟨hk1, hg1⟩ := bindParam_paramBinders _ _ _ _ _ _ _ _ hstep
      obtain ⟨hk2, hg2⟩ := ih st2 st1 h
      refine ⟨hk2.trans hk1, ?_⟩
      intro g b1 hg
      obtain ⟨b2, hb2, hs2⟩ := hg2 g b1 hg
      obtain ⟨b, hb, hs⟩ := hg1 g b2 hb2
      exact ⟨b, hb, hs2.1.trans hs.1, hs2.2.1.trans hs.2.1, hs2.2.2.trans hs.2.2⟩

theorem Bind_final (o : untypedRequestBinder) (request : Request) (routeParams : RouteParams)
    (consumer : Consumer) (data : Data) (r : BindReturn)
    (h : o.Bind request routeParams consumer data = some r) :
    rangeParameters request routeParams consumer
      (decide ((indirectValueOf data).Kind = Kind.Map)) o.Parameters
      { result := [], val := indirectValueOf data, paramBinders := o.paramBinders,
        trace := [] } = some r.final := by
  rw [Bind_unfold] at h
  cases hl : rangeParameters request routeParams consumer
      (decide ((indirectValueOf data).Kind = Kind.Map)) o.Parameters
      { result := [], val := indirectValueOf data, paramBinders := o.paramBinders,
        trace := [] } with
  | none => simp [hl] at h
  | some st =>
    simp only [hl, Option.some.injEq] at h
    rw [← h]

/-- C8: the request binder built by `newUntypedRequestBinder` from a parameter mapping has a
`paramBinders` mapping with the same keys as `Parameters`, each key holding the Field Binder
built from the definition of its parameter; a call of `Bind` that returns leaves the keys of
`paramBinders` as they were and every Field Binder the same up to its `Name`; and in every
turn of the loop of `Bind` the lookup `o.paramBinders[fieldName]` finds the Field Binder of the
entry. -/
theorem paramBinders_keyed_as_Parameters
    (newUntypedParamBinder : Parameter → Swagger → Registry → untypedParamBinder)
    (parameters : List (String × Parameter)) (spec : Swagger) (formats : Registry)
    (hk : (mapKeys parameters).Nodup) :
    (newUntypedRequestBinder newUntypedParamBinder parameters spec formats).Parameters =
      parameters ∧
    mapKeys (newUntypedRequestBinder newUntypedParamBinder parameters spec formats).paramBinders
      = mapKeys parameters ∧
    (∀ fp ∈ parameters,
      mapGet (newUntypedRequestBinder newUntypedParamBinder parameters spec
        formats).paramBinders fp.1 = some (newUntypedParamBinder fp.2 spec formats)) ∧
    ∀ (request : Request) (routeParams : RouteParams) (consumer : Consumer) (data : Data),
      (∀ r, (newUntypedRequestBinder newUntypedParamBinder parameters spec formats).Bind
          request routeParams consumer data = some r →
        mapKeys r.final.paramBinders = mapKeys parameters ∧
        ∀ fp ∈ parameters, ∃ b, mapGet r.final.paramBinders fp.1 = some b ∧
          b.sameButName (newUntypedParamBinder fp.2 spec formats)) ∧
      (∀ pre fp post st, parameters = pre ++ fp :: post →
        rangeParameters request routeParams consumer
          (decide ((indirectValueOf data).Kind = Kind.Map)) pre
          { result := [], val := indirectValueOf data,
            paramBinders := (newUntypedRequestBinder newUntypedParamBinder parameters spec
              formats).paramBinders,
            trace := [] } = some st →
        ∃ b, mapGet st.paramBinders fp.1 = some b ∧
          b.sameButName (newUntypedParamBinder fp.2 spec formats)) := by
  have hkeys : mapKeys (newUntypedRequestBinder newUntypedParamBinder parameters spec
      formats).paramBinders = mapKeys parameters := by
    have := foldl_mapSet_keys (fun p => newUntypedParamBinder p spec formats) parameters []
      (by simpa [mapKeys] using hk)
    simpa [newUntypedRequestBinder, mapKeys] using this
  have hget : ∀ fp ∈ parameters,
      mapGet (newUntypedRequestBinder newUntypedParamBinder parameters spec
        formats).paramBinders fp.1 = some (newUntypedParamBinder fp.2 spec formats) :=
    fun fp hfp =>
      foldl_mapSet_get (fun p => newUntypedParamBinder p spec formats) parameters [] hk fp hfp
  have hkept : ∀ (st0 st : LoopState) (isMap : Bool) (request : Request)
      (routeParams : RouteParams) (consumer : Consumer) (ps : List (String × Parameter)),
      st0.paramBinders = (newUntypedRequestBinder newUntypedParamBinder parameters spec
        formats).paramBinders →
      rangeParameters request routeParams consumer isMap ps st0 = some st →
      mapKeys st.paramBinders = mapKeys parameters ∧
      ∀ fp ∈ parameters, ∃ b, mapGet st.paramBinders fp.1 = some b ∧
        b.sameButName (newUntypedParamBinder fp.2 spec formats) := by
    intro st0 st isMap request routeParams consumer ps h0 hrun
    obtain ⟨h1, h2⟩ := rangeParameters_paramBinders _ _ _ _ _ _ _ hrun
    rw [h0] at h1 h2
    refine ⟨h1.trans hkeys, ?_⟩
    intro fp hfp
    have hmem : fp.1 ∈ mapKeys st.paramBinders := by
      rw [h1, hkeys]
      exact List.mem_map.mpr ⟨fp, hfp, rfl⟩
    obtain ⟨b, hb⟩ := Option.isSome_iff_exists.mp ((mapGet_isSome_iff _ _).mpr hmem)
    obtain ⟨b0, hb0, hs⟩ := h2 fp.1 b hb
    rw [hget fp hfp] at hb0
    cases hb0
    exact ⟨b, hb, hs⟩
  refine ⟨rfl, hkeys, hget, ?_⟩
  intro request routeParams consumer data
  constructor
  · intro r hr
    exact hkept _ r.final _ request routeParams consumer _ rfl
      (Bind_final _ request routeParams consumer data r hr)
  · intro pre fp post st hsplit hrun
    have hfp : fp ∈ parameters := by rw [hsplit]; simp
    exact (hkept _ st _ request routeParams consumer pre rfl hrun).2 fp hfp

/-- C8, on the sample parameters. -/
theorem paramBinders_keyed_as_Parameters_witness :
    (mapKeys sampleParameters).Nodup ∧
    (newUntypedRequestBinder sampleParamBinder sampleParameters ⟨1⟩ ⟨1⟩).Parameters =
      sampleParameters ∧
    mapKeys (newUntypedRequestBinder sampleParamBinder sampleParameters ⟨1⟩ ⟨1⟩).paramBinders
      = mapKeys sampleParameters ∧
    (∀ fp ∈ sampleParameters,
      mapGet (newUntypedRequestBinder sampleParamBinder sampleParameters ⟨1⟩
        ⟨1⟩).paramBinders fp.1 = some (sampleParamBinder fp.2 ⟨1⟩ ⟨1⟩)) ∧
    ∀ (request : Request) (routeParams : RouteParams) (consumer : Consumer) (data : Data),
      (∀ r, (newUntypedRequestBinder sampleParamBinder sampleParameters ⟨1⟩ ⟨1⟩).Bind
          request routeParams consumer data = some r →
        mapKeys r.final.paramBinders = mapKeys sampleParameters ∧
        ∀ fp ∈ sampleParameters, ∃ b, mapGet r.final.paramBinders fp.1 = some b ∧
          b.sameButName (sampleParamBinder fp.2 ⟨1⟩ ⟨1⟩)) ∧
      (∀ pre fp post st, sampleParameters = pre ++ fp :: post →
        rangeParameters request routeParams consumer
          (decide ((indirectValueOf data).Kind = Kind.Map)) pre
          { result := [], val := indirectValueOf data,
            paramBinders := (newUntypedRequestBinder sampleParamBinder sampleParameters ⟨1⟩
              ⟨1⟩).paramBinders,
            trace := [] } = some st →
        ∃ b, mapGet st.paramBinders fp.1 = some b ∧
          b.sameButName (sampleParamBinder fp.2 ⟨1⟩ ⟨1⟩)) :=
  ⟨by decide, paramBinders_keyed_as_Parameters sampleParamBinder sampleParameters ⟨1⟩ ⟨1⟩
    (by decide)⟩

/-! ## C10 -/

theorem pair_eq_of_key_eq {V : Type} (l : List (String × V)) (hn : (l.map Prod.fst).Nodup)
    (x y : String × V) (hx : x ∈ l) (hy : y ∈ l) (h : x.1 = y.1) : x = y := by
  have h1 := mapGet_of_mem l x.1 x.2 hn hx
  have h2 := mapGet_of_mem l y.1 y.2 hn hy
  rw [h, h2] at h1
  exact Prod.ext h (Option.some.inj h1).symm

theorem nodup_filterMap_keys {α V : Type} (w : α → Option (String × V)) (key : α → String)
    (hw : ∀ x kw, w x = some kw → kw.1 = key x) (l : List α) :
    (l.map key).Nodup → ((l.filterMap w).map Prod.fst).Nodup := by
  have hsub : ∀ l : List α, ∀ k ∈ (l.filterMap w).map Prod.fst, k ∈ l.map key := by
    intro l k hk
    obtain ⟨kw, hkw, hkey⟩ := List.mem_map.mp hk
    obtain ⟨x, hx, hxw⟩ := List.mem_filterMap.mp hkw
    exact List.mem_map.mpr ⟨x, hx, ((hw x kw hxw).symm.trans hkey)⟩
  induction l with
  | nil => intro _; simp
  | cons x rest ih =>
    intro hn
    simp only [List.map_cons, List.nodup_cons] at hn
    cases hx : w x with
    | none => simpa [List.filterMap_cons, hx] using ih hn.2
    | some kw =>
      simp only [List.filterMap_cons, hx, List.map_cons, List.nodup_cons]
      refine ⟨?_, ih hn.2⟩
      intro hmem
      have := hsub rest kw.1 hmem
      rw [hw x kw hx] at this
      exact hn.1 this

theorem setField_comm (fs : List (String × Value)) (k1 k2 : String) (v1 v2 : Value)
    (h : k1 ≠ k2) :
    setField (setField fs k1 v1) k2 v2 = setField (setField fs k2 v2) k1 v1 := by
  induction fs with
  | nil => rfl
  | cons e rest ih =>
    obtain ⟨k, w⟩ := e
    by_cases h1 : k = k1
    · subst h1
      simp [setField, h]
    · by_cases h2 : k = k2
      · subst h2
        simp [setField, h1]
      · simp [setField, h1, h2, ih]

theorem foldl_put_struct (ws : List (String × Value)) :
    ∀ fs : List (String × Value),
      ws.foldl (fun v kw => v.put kw.1 kw.2) (Val.struct fs) =
        Val.struct (ws.foldl (fun fs kw => setField fs kw.1 kw.2) fs) := by
  induction ws with
  | nil => intro fs; rfl
  | cons kw rest ih =>
    intro fs
    rw [List.foldl_cons, List.foldl_cons]
    exact ih (setField fs kw.1 kw.2)

theorem foldl_put_map (ws : List (String × Value)) :
    ∀ m : List (String × Value),
      ws.foldl (fun v kw => v.put kw.1 kw.2) (Val.map (some m)) =
        Val.map (some (ws.foldl (fun m kw => mapSet m kw.1 kw.2) m)) := by
  induction ws with
  | nil => intro m; rfl
  | cons kw rest ih =>
    intro m
    rw [List.foldl_cons, List.foldl_cons]
    exact ih (mapSet m kw.1 kw.2)

theorem foldl_put_fixed (ws : List (String × Value)) (val : Val)
    (h : ∀ k v, val.put k v = val) :
    ws.foldl (fun v kw => v.put kw.1 kw.2) val = val := by
  induction ws with
  | nil => rfl
  | cons kw rest ih => simp only [List.foldl_cons, h, ih]

/-- Writes to distinct slots, made in two orders, leave the same contents. -/
theorem foldl_put_perm (ws ws1 : List (String × Value)) (val : Val) (hp : ws.Perm ws1)
    (hn : (ws.map Prod.fst).Nodup) :
    (ws.foldl (fun v kw => v.put kw.1 kw.2) val).sameContents
      (ws1.foldl (fun v kw => v.put kw.1 kw.2) val) := by
  have hn1 : (ws1.map Prod.fst).Nodup := (hp.map Prod.fst).nodup_iff.mp hn
  cases val with
  | invalid =>
    rw [foldl_put_fixed ws _ (fun _ _ => rfl), foldl_put_fixed ws1 _ (fun _ _ => rfl)]
    rfl
  | other v =>
    rw [foldl_put_fixed ws _ (fun _ _ => rfl), foldl_put_fixed ws1 _ (fun _ _ => rfl)]
    rfl
  | struct fs =>
    rw [foldl_put_struct, foldl_put_struct]
    have : ws.foldl (fun fs kw => setField fs kw.1 kw.2) fs =
        ws1.foldl (fun fs kw => setField fs kw.1 kw.2) fs := by
      apply List.Perm.foldl_eq' hp
      intro x hx y hy z
      by_cases hxy : x.1 = y.1
      · rw [pair_eq_of_key_eq ws hn x y hx hy hxy]
      · exact setField_comm z x.1 y.1 x.2 y.2 hxy
    rw [this]
    rfl
  | map m =>
    cases m with
    | none =>
      rw [foldl_put_fixed ws _ (fun _ _ => rfl), foldl_put_fixed ws1 _ (fun _ _ => rfl)]
      rfl
    | some m =>
      have hget : ∀ k, (ws.foldl (fun v kw => v.put kw.1 kw.2) (Val.map (some m))).get k =
          (ws1.foldl (fun v kw => v.put kw.1 kw.2) (Val.map (some m))).get k := by
        intro k
        by_cases hk : k ∈ ws.map Prod.fst
        · obtain ⟨kw, hkw, hkey⟩ := List.mem_map.mp hk
          obtain ⟨k0, w⟩ := kw
          simp only at hkey
          subst hkey
          have hcs : (Val.map (some m)).canStore = true := rfl
          rw [get_foldl_put_of_mem ws k0 w (Val.map (some m)) hkw
              (fun x hx hxk => pair_eq_of_key_eq ws hn x (k0, w) hx hkw hxk) (Or.inl hcs),
            get_foldl_put_of_mem ws1 k0 w (Val.map (some m)) (hp.mem_iff.mp hkw)
              (fun x hx hxk => pair_eq_of_key_eq ws1 hn1 x (k0, w) hx (hp.mem_iff.mp hkw) hxk)
              (Or.inl hcs)]
        · have hk1 : k ∉ ws1.map Prod.fst := fun h => hk ((hp.map Prod.fst).mem_iff.mpr h)
          rw [get_foldl_put_of_not_mem ws k _ hk, get_foldl_put_of_not_mem ws1 k _ hk1]
      rw [foldl_put_map, foldl_put_map] at hget ⊢
      exact hget

/-- C10: two orders of processing of the same parameters (distinct keys, distinct wire names)
give the same outcome: `Bind` panics in both or in neither, and when it returns, it returns
nil in both or an error in both, the lists of errors are permutations of each other, and the
destination has the same contents. -/
theorem Bind_independent_of_order (o : untypedRequestBinder)
    (ps1 : List (String × Parameter)) (request : Request) (routeParams : RouteParams)
    (consumer : Consumer) (data : Data) (hp : ps1.Perm o.Parameters)
    (hk : (mapKeys o.Parameters).Nodup)
    (hw : (o.Parameters.map (fun fp => fp.2.Name)).Nodup) :
    (o.Bind request routeParams consumer data = none ↔
      ({ o with Parameters := ps1 } : untypedRequestBinder).Bind request routeParams consumer
        data = none) ∧
    ∀ r r1, o.Bind request routeParams consumer data = some r →
      ({ o with Parameters := ps1 } : untypedRequestBinder).Bind request routeParams consumer
        data = some r1 →
      (r.err = none ↔ r1.err = none) ∧
      r.final.result.Perm r1.final.result ∧
      (∀ c c1, r.err = some c → r1.err = some c1 → c.Errors.Perm c1.Errors) ∧
      r.final.val.sameContents r1.final.val := by
  have hk1 : (mapKeys ({ o with Parameters := ps1 } : untypedRequestBinder).Parameters).Nodup :=
    ((hp.map Prod.fst).nodup_iff).mpr hk
  have hatt : ∀ fp, attemptOf ({ o with Parameters := ps1 } : untypedRequestBinder) request
      routeParams consumer data fp = attemptOf o request routeParams consumer data fp :=
    fun _ => rfl
  constructor
  · constructor
    · intro hnone
      cases h1 : ({ o with Parameters := ps1 } : untypedRequestBinder).Bind request routeParams
          consumer data with
      | none => rfl
      | some r1 =>
        obtain ⟨hall, _⟩ := Bind_some _ request routeParams consumer data hk1 r1 h1
        obtain ⟨r, hr⟩ := Bind_returns o request routeParams consumer data hk (by
          intro fp hfp
          obtain ⟨a, ha⟩ := hall fp (hp.mem_iff.mpr hfp)
          rw [← hatt, ha]; rfl)
        rw [hnone] at hr
        cases hr
    · intro hnone
      cases h : o.Bind request routeParams consumer data with
      | none => rfl
      | some r =>
        obtain ⟨hall, _⟩ := Bind_some o request routeParams consumer data hk r h
        obtain ⟨r1, hr1⟩ := Bind_returns ({ o with Parameters := ps1 } : untypedRequestBinder)
          request routeParams consumer data hk1 (by
            intro fp hfp
            obtain ⟨a, ha⟩ := hall fp (hp.mem_iff.mp hfp)
            rw [hatt, ha]; rfl)
        rw [hnone] at hr1
        cases hr1
  · intro r r1 hr hr1
    obtain ⟨_, hres, _, hval, herr⟩ := Bind_some o request routeParams consumer data hk r hr
    obtain ⟨_, hres1, _, hval1, herr1⟩ :=
      Bind_some _ request routeParams consumer data hk1 r1 hr1
    have hperm : r.final.result.Perm r1.final.result := by
      rw [hres, hres1]
      exact List.Perm.flatMap_right _ hp.symm
    have hnil : r.final.result = [] ↔ r1.final.result = [] := by
      constructor
      · intro h; rw [h] at hperm; exact hperm.symm.eq_nil
      · intro h; rw [h] at hperm; exact hperm.eq_nil
    have hslots : (o.Parameters.map (fun fp =>
        slotKey (decide ((indirectValueOf data).Kind = Kind.Map)) fp.1 fp.2)).Nodup := by
      cases decide ((indirectValueOf data).Kind = Kind.Map) with
      | true => simpa [slotKey] using hw
      | false => simpa [slotKey, mapKeys] using hk
    have hwrites : ((o.Parameters.filterMap
        (paramWrite o request routeParams consumer data)).map Prod.fst).Nodup :=
      nodup_filterMap_keys _ _
        (fun fp kw h => paramWrite_key o request routeParams consumer data fp kw h) _ hslots
    refine ⟨?_, hperm, ?_, ?_⟩
    · rw [herr, herr1]
      by_cases h : r.final.result = []
      · have h1 := hnil.mp h
        simp [h, h1]
      · have h1 : ¬ r1.final.result = [] := fun h1 => h (hnil.mpr h1)
        simp [h, h1]
    · intro c c1 hc hc1
      rw [herr] at hc
      rw [herr1] at hc1
      by_cases h : r.final.result = []
      · simp [h] at hc
      · have h1 : ¬ r1.final.result = [] := fun h1 => h (hnil.mpr h1)
        simp only [h, h1, if_false, Option.some.injEq] at hc hc1
        rw [← hc, ← hc1]
        exact hperm
    · rw [hval, hval1]
      exact foldl_put_perm _ _ _ (List.Perm.filterMap _ hp.symm) hwrites

/-- C10, on the sample service, its struct, and the parameters taken in the reverse order. -/
theorem Bind_independent_of_order_witness :
    (sampleParameters.reverse.Perm sampleBinder.Parameters ∧
      (mapKeys sampleBinder.Parameters).Nodup ∧
      (sampleBinder.Parameters.map (fun fp => fp.2.Name)).Nodup) ∧
    (sampleBinder.Bind sampleRequest sampleRouteParams sampleConsumer sampleStruct = none ↔
      ({ sampleBinder with Parameters := sampleParameters.reverse } :
        untypedRequestBinder).Bind sampleRequest sampleRouteParams sampleConsumer
        sampleStruct = none) ∧
    ∃ r r1,
      sampleBinder.Bind sampleRequest sampleRouteParams sampleConsumer sampleStruct = some r ∧
      ({ sampleBinder with Parameters := sampleParameters.reverse } :
        untypedRequestBinder).Bind sampleRequest sampleRouteParams sampleConsumer
        sampleStruct = some r1 ∧
      (r.err = none ↔ r1.err = none) ∧
      r.final.result.Perm r1.final.result ∧
      (∀ c c1, r.err = some c → r1.err = some c1 → c.Errors.Perm c1.Errors) ∧
      r.final.val.sameContents r1.final.val := by
  have h := Bind_independent_of_order sampleBinder sampleParameters.reverse sampleRequest
    sampleRouteParams sampleConsumer sampleStruct (List.reverse_perm _) (by decide)
    (by decide)
  refine ⟨⟨List.reverse_perm _, by decide, by decide⟩, h.1, ?_⟩
  obtain ⟨r, hr⟩ := Bind_returns sampleBinder sampleRequest sampleRouteParams sampleConsumer
    sampleStruct (by decide) (canBind_attemptOf _ _ _ _ _ (by decide))
  obtain ⟨r1, hr1⟩ := Bind_returns
    ({ sampleBinder with Parameters := sampleParameters.reverse } : untypedRequestBinder)
    sampleRequest sampleRouteParams sampleConsumer sampleStruct (by decide)
    (canBind_attemptOf _ _ _ _ _ (by decide))
  exact ⟨r, r1, hr, hr1, h.2 r r1 hr hr1⟩

end middleware
